import Mathlib

/-!
Verification of the VitAI ReAct agent core (`agent.py`).

This file contains a shallow embedding of the response-interpretation and
orchestration logic of `ReActAgent`:

* `_truncate_observation` (the spec's ContextBudgeter),
* `_parse_action` (ActionParser),
* `_extract_final_answer` (AnswerExtractor),
* `_execute_tool` (ToolExecutor),
* the `query` while-loop (OrchestrationLoop), and
* `_load_repository_structures` / the cache prelude of `query`
  (RepositoryIndex cache).

Strings are embedded as `List Char`; the helpers prefixed with `py` model the
semantics of the corresponding Python `str` operations.  The `json` standard
library (`json.loads` / `json.dumps`) is modelled by an executable JSON value
type together with a serializer and a fuel-based recursive-descent parser,
with a proved serialize/parse round-trip used where the source relies on it.
External collaborators (the GitHub HTTP client of `search.py`, `base64`,
UTF-8 decoding, the model oracle) are oracle parameters, exactly the spec's
interface boundary.
-/

namespace VitAI

/-! ## Python string primitives on `List Char` -/

/-- Whitespace characters stripped by Python's `str.strip()`. -/
def isPyWs (c : Char) : Bool :=
  c = ' ' || c = '\t' || c = '\n' || c = '\r' || c = '\x0b' || c = '\x0c'

/-- Python `s.lstrip()`. -/
def pyLStrip (s : List Char) : List Char := s.dropWhile isPyWs

/-- Python `s.rstrip()`. -/
def pyRStrip (s : List Char) : List Char := (s.reverse.dropWhile isPyWs).reverse

/-- Python `s.strip()`. -/
def pyStrip (s : List Char) : List Char := pyLStrip (pyRStrip s)

/-- Python `s.lower()` (ASCII case folding; all markers are ASCII). -/
def pyLower (s : List Char) : List Char := s.map Char.toLower

/-- Python `s.startswith(p)`. -/
def pyStartsWith (s p : List Char) : Bool := p.isPrefixOf s

/-- Python `s.find(sub)`: index of the first occurrence, `none` for `-1`. -/
def pyFind (s sub : List Char) : Option Nat :=
  if sub.isPrefixOf s then some 0
  else
    match s with
    | [] => none
    | _ :: t => (pyFind t sub).map (· + 1)

/-- Python `sub in s` (substring containment). -/
def pyContains (s sub : List Char) : Bool := (pyFind s sub).isSome

/-- Fuelled scanning loop of Python `s.count(sub)` for non-empty `sub`:
non-overlapping occurrences, scanning left to right.  The fuel is structural
so that the definition evaluates by `decide`; `pyCount` supplies fuel equal
to the length of the scanned string, which is always sufficient because each
step consumes at least one character. -/
def pyCountGo (sub : List Char) : Nat → List Char → Nat
  | 0, _ => 0
  | _, [] => 0
  | fuel + 1, c :: cs =>
    if sub.isPrefixOf (c :: cs) then 1 + pyCountGo sub fuel (cs.drop (sub.length - 1))
    else pyCountGo sub fuel cs

/-- Python `s.count(sub)`. -/
def pyCount (s sub : List Char) : Nat :=
  if sub.isEmpty then s.length + 1 else pyCountGo sub s.length s

/-- Python `s.split('\n')`: every piece kept, including empty ones. -/
def pySplitLines : List Char → List (List Char)
  | [] => [[]]
  | c :: cs =>
    if c = '\n' then [] :: pySplitLines cs
    else
      match pySplitLines cs with
      | l :: ls => (c :: l) :: ls
      | [] => [[c]]

/-- Python `'\n'.join(lines)`. -/
def joinLines : List (List Char) → List Char
  | [] => []
  | [l] => l
  | l :: ls => l ++ '\n' :: joinLines ls

/-- Python `' '.join(parts)`. -/
def joinSpace : List (List Char) → List Char
  | [] => []
  | [l] => l
  | l :: ls => l ++ ' ' :: joinSpace ls

/-- The part of `s` strictly before the first occurrence of `sub`
(`s.split(sub)[0]`, or all of `s` when `sub` does not occur). -/
def beforeFirst (s sub : List Char) : List Char :=
  match pyFind s sub with
  | some i => s.take i
  | none => s

/-- The part of `s` strictly after the first occurrence of `sub`
(`s.split(sub, 1)[1]`; only used where the occurrence is known to exist). -/
def afterFirst (s sub : List Char) : List Char :=
  match pyFind s sub with
  | some i => s.drop (i + sub.length)
  | none => []

/-! ## Decimal numerals

`natStr n` is the decimal representation of `n`, used to model Python
f-string interpolation of integers and `json.dumps` of numbers. -/

def digitChar : Nat → Char
  | 0 => '0' | 1 => '1' | 2 => '2' | 3 => '3' | 4 => '4'
  | 5 => '5' | 6 => '6' | 7 => '7' | 8 => '8' | _ => '9'

def isDigitC (c : Char) : Bool := 48 ≤ c.toNat && c.toNat ≤ 57

def hexDigitChar : Nat → Char
  | 0 => '0' | 1 => '1' | 2 => '2' | 3 => '3' | 4 => '4'
  | 5 => '5' | 6 => '6' | 7 => '7' | 8 => '8' | 9 => '9'
  | 10 => 'a' | 11 => 'b' | 12 => 'c' | 13 => 'd' | 14 => 'e' | _ => 'f'

def digitVal (c : Char) : Nat := c.toNat - 48

/-- Fuelled digit emitter; the fuel is structural so that numerals evaluate
by `decide`/`rfl`.  A fuel of `n` always suffices since `n / 10 < n`. -/
def natStrGo : Nat → Nat → List Char
  | 0, n => [digitChar n]
  | fuel + 1, n =>
    if n < 10 then [digitChar n]
    else natStrGo fuel (n / 10) ++ [digitChar (n % 10)]

def natStr (n : Nat) : List Char := natStrGo n n

/-- Decimal representation of an integer (Python `str(i)`). -/
def intStr (n : Int) : List Char :=
  if n < 0 then '-' :: natStr n.natAbs else natStr n.natAbs

/-! ## The JSON value model

`Json` models the values produced by Python's `json.loads`: `None`, booleans,
integers, strings, lists and dicts.  Dicts are association lists whose keys
are unique and ordered by first insertion, exactly Python's `dict`; the
assignment `d[k] = v` is `objInsert`. -/

inductive Json where
  | null : Json
  | bool : Bool → Json
  | num : Int → Json
  | str : List Char → Json
  | arr : List Json → Json
  | obj : List (List Char × Json) → Json
deriving Repr

instance : Inhabited Json := ⟨Json.null⟩

/-- First-match association lookup (Python `d[k]` / `k in d` on a dict). -/
def jlookup : List (List Char × Json) → List Char → Option Json
  | [], _ => none
  | (k0, v0) :: rest, k => if k0 = k then some v0 else jlookup rest k

/-- Python `d[k] = v`: replace the value at the first occurrence of `k`,
otherwise append the new binding. -/
def objInsert : List (List Char × Json) → List Char → Json → List (List Char × Json)
  | [], k, v => [(k, v)]
  | (k0, v0) :: rest, k, v =>
    if k0 = k then (k0, v) :: rest else (k0, v0) :: objInsert rest k v

/-- Python `v == "lit"` for a string literal `lit`: true exactly when `v` is
the equal string (every `==` in the embedded source compares against a string
literal, for which Python equality is this test). -/
def jeqStr (v : Json) (s : List Char) : Bool :=
  match v with
  | .str t => t == s
  | _ => false

/-! ## `json.dumps` -/

/-- Escaping of one character inside a JSON string literal. -/
def escChar (c : Char) : List Char :=
  if c = '"' then ['\\', '"']
  else if c = '\\' then ['\\', '\\']
  else if c = '\n' then ['\\', 'n']
  else if c = '\t' then ['\\', 't']
  else if c = '\r' then ['\\', 'r']
  else if c = '\x08' then ['\\', 'b']
  else if c = '\x0c' then ['\\', 'f']
  else if c.toNat < 32 then
    ['\\', 'u', '0', '0', hexDigitChar (c.toNat / 16), hexDigitChar (c.toNat % 16)]
  else [c]

def escape (s : List Char) : List Char := s.flatMap escChar

def spaces (n : Nat) : List Char := List.replicate n ' '

mutual

/-- `json.dumps`.  `pretty = true` models `indent=2` (as used for tool
results), `pretty = false` the default compact form (as used for error
payloads); `lvl` is the current indentation level. -/
def dumpsVal (pretty : Bool) (lvl : Nat) : Json → List Char
  | .null => 'n' :: ['u', 'l', 'l']
  | .bool true => 't' :: ['r', 'u', 'e']
  | .bool false => 'f' :: ['a', 'l', 's', 'e']
  | .num n => intStr n
  | .str s => '"' :: (escape s ++ ['"'])
  | .arr [] => ['[', ']']
  | .arr (x :: xs) =>
    if pretty then
      '[' :: '\n' :: (spaces (lvl + 2) ++ dumpsItems pretty (lvl + 2) x xs
        ++ '\n' :: (spaces lvl ++ [']']))
    else '[' :: (dumpsItems pretty lvl x xs ++ [']'])
  | .obj [] => ['{', '}']
  | .obj ((k, v) :: kvs) =>
    if pretty then
      '{' :: '\n' :: (spaces (lvl + 2) ++ dumpsPairs pretty (lvl + 2) k v kvs
        ++ '\n' :: (spaces lvl ++ ['}']))
    else '{' :: (dumpsPairs pretty lvl k v kvs ++ ['}'])
termination_by v => sizeOf v
decreasing_by all_goals (simp_wf; omega)

/-- The comma-separated rendering of the items of a non-empty JSON list. -/
def dumpsItems (pretty : Bool) (lvl : Nat) (x : Json) : List Json → List Char
  | [] => dumpsVal pretty lvl x
  | y :: ys =>
    if pretty then
      dumpsVal pretty lvl x ++ ',' :: '\n' :: (spaces lvl ++ dumpsItems pretty lvl y ys)
    else
      dumpsVal pretty lvl x ++ ',' :: ' ' :: dumpsItems pretty lvl y ys
termination_by xs => sizeOf x + sizeOf xs + 1
decreasing_by all_goals (simp_wf; omega)

/-- The comma-separated rendering of the entries of a non-empty JSON dict. -/
def dumpsPairs (pretty : Bool) (lvl : Nat) (k : List Char) (v : Json) :
    List (List Char × Json) → List Char
  | [] => '"' :: (escape k ++ '"' :: ':' :: ' ' :: dumpsVal pretty lvl v)
  | (k2, v2) :: kvs =>
    if pretty then
      '"' :: (escape k ++ '"' :: ':' :: ' ' :: dumpsVal pretty lvl v)
        ++ ',' :: '\n' :: (spaces lvl ++ dumpsPairs pretty lvl k2 v2 kvs)
    else
      '"' :: (escape k ++ '"' :: ':' :: ' ' :: dumpsVal pretty lvl v)
        ++ ',' :: ' ' :: dumpsPairs pretty lvl k2 v2 kvs
termination_by kvs => sizeOf v + sizeOf kvs + 1
decreasing_by all_goals (simp_wf; omega)

end

/-- `json.dumps(v, indent=2)`, the form used for tool observations. -/
def dumps2 (v : Json) : List Char := dumpsVal true 0 v

/-- `json.dumps(v)` in its default compact form, used for error payloads. -/
def dumpsC (v : Json) : List Char := dumpsVal false 0 v

/-! ## `json.loads` -/

def isJsonWs (c : Char) : Bool := c = ' ' || c = '\t' || c = '\n' || c = '\r'

def skipWs (s : List Char) : List Char := s.dropWhile isJsonWs

def isHexC (c : Char) : Bool :=
  (48 ≤ c.toNat && c.toNat ≤ 57) || (97 ≤ c.toNat && c.toNat ≤ 102)
    || (65 ≤ c.toNat && c.toNat ≤ 70)

def hexVal (c : Char) : Nat :=
  if 48 ≤ c.toNat && c.toNat ≤ 57 then c.toNat - 48
  else if 97 ≤ c.toNat && c.toNat ≤ 102 then c.toNat - 87
  else c.toNat - 55

/-- Decoding of the character named by a two-character escape. -/
def escDecode (e : Char) : Option Char :=
  if e = '"' then some '"'
  else if e = '\\' then some '\\'
  else if e = '/' then some '/'
  else if e = 'n' then some '\n'
  else if e = 't' then some '\t'
  else if e = 'r' then some '\r'
  else if e = 'b' then some '\x08'
  else if e = 'f' then some '\x0c'
  else none

/-- Body of a JSON string literal, after the opening quote: returns the
decoded characters and the input after the closing quote. -/
def parseStrBody : List Char → Option (List Char × List Char)
  | [] => none
  | c :: cs =>
    if c = '"' then some ([], cs)
    else if c = '\\' then
      match cs with
      | [] => none
      | e :: cs2 =>
        if e = 'u' then
          match cs2 with
          | h1 :: h2 :: h3 :: h4 :: cs3 =>
            if isHexC h1 && isHexC h2 && isHexC h3 && isHexC h4 then
              (parseStrBody cs3).map (fun p =>
                (Char.ofNat (hexVal h1 * 4096 + hexVal h2 * 256 + hexVal h3 * 16 + hexVal h4)
                  :: p.1, p.2))
            else none
          | _ => none
        else
          match escDecode e with
          | some d => (parseStrBody cs2).map (fun p => (d :: p.1, p.2))
          | none => none
    else if c.toNat < 32 then none
    else (parseStrBody cs).map (fun p => (c :: p.1, p.2))

/-- Digit run accumulator for number parsing. -/
def parseDigits : List Char → Nat → Nat × List Char
  | [], acc => (acc, [])
  | c :: cs, acc =>
    if isDigitC c then parseDigits cs (acc * 10 + digitVal c) else (acc, c :: cs)

/-- A JSON number token (integers; the agent's data model has no floats). -/
def parseNumTok : List Char → Option (Int × List Char)
  | [] => none
  | c :: cs =>
    if c = '-' then
      match cs with
      | [] => none
      | c2 :: _ =>
        if isDigitC c2 then
          some (-(((parseDigits cs 0).1 : Int)), (parseDigits cs 0).2)
        else none
    else if isDigitC c then
      some ((((parseDigits (c :: cs) 0).1 : Int)), (parseDigits (c :: cs) 0).2)
    else none

mutual

/-- Fuel-based JSON value parser; `loads` supplies sufficient fuel. -/
def parseVal : Nat → List Char → Option (Json × List Char)
  | 0, _ => none
  | fuel + 1, s =>
    match skipWs s with
    | [] => none
    | c :: cs =>
      if c = '"' then (parseStrBody cs).map (fun p => (Json.str p.1, p.2))
      else if c = '[' then (parseArrItems fuel cs).map (fun p => (Json.arr p.1, p.2))
      else if c = '{' then
        (parseObjItems fuel cs).map (fun p =>
          (Json.obj (p.1.foldl (fun d kv => objInsert d kv.1 kv.2) []), p.2))
      else if c = 't' then
        if ['r', 'u', 'e'].isPrefixOf cs then some (Json.bool true, cs.drop 3) else none
      else if c = 'f' then
        if ['a', 'l', 's', 'e'].isPrefixOf cs then some (Json.bool false, cs.drop 4) else none
      else if c = 'n' then
        if ['u', 'l', 'l'].isPrefixOf cs then some (Json.null, cs.drop 3) else none
      else (parseNumTok (c :: cs)).map (fun p => (Json.num p.1, p.2))

/-- Items of a JSON array, after the opening bracket. -/
def parseArrItems : Nat → List Char → Option (List Json × List Char)
  | 0, _ => none
  | fuel + 1, s =>
    match skipWs s with
    | ']' :: rest => some ([], rest)
    | _ =>
      match parseVal fuel s with
      | some (v, r) =>
        match skipWs r with
        | ',' :: r2 => (parseArrItems fuel r2).map (fun p => (v :: p.1, p.2))
        | ']' :: r2 => some ([v], r2)
        | _ => none
      | none => none

/-- Entries of a JSON object, after the opening brace. -/
def parseObjItems : Nat → List Char → Option (List (List Char × Json) × List Char)
  | 0, _ => none
  | fuel + 1, s =>
    match skipWs s with
    | '}' :: rest => some ([], rest)
    | '"' :: cs =>
      match parseStrBody cs with
      | some (k, r) =>
        match skipWs r with
        | ':' :: r2 =>
          match parseVal fuel r2 with
          | some (v, r3) =>
            match skipWs r3 with
            | ',' :: r4 => (parseObjItems fuel r4).map (fun p => ((k, v) :: p.1, p.2))
            | '}' :: r4 => some ([(k, v)], r4)
            | _ => none
          | none => none
        | _ => none
      | none => none
    | _ => none

end

/-- `json.loads`: parse a complete JSON document, allowing only trailing
whitespace; `none` models a raised `JSONDecodeError`. -/
def loads (s : List Char) : Option Json :=
  match parseVal (s.length + 1) s with
  | some (v, rest) => if skipWs rest = [] then some v else none
  | none => none

/-- String literals of the source, as `List Char`. -/
def lit (s : String) : List Char := s.toList

/-! ## `ReActAgent._truncate_observation` (the spec's ContextBudgeter)

`agent.py`, lines 465-484. -/

def itemsKey : List Char := lit "items"

def noteKey : List Char := lit "note"

/-- `f"Showing 3 of {original_count} total items to save context"`. -/
def noteText (n : Nat) : List Char :=
  lit "Showing 3 of " ++ natStr n ++ lit " total items to save context"

/-- The plain-truncation fallback:
`observation[:max_length] + f"\n... [truncated, originally {len(observation)} chars]"`. -/
def truncFallback (maxLength : Nat) (observation : List Char) : List Char :=
  observation.take maxLength ++ lit "\n... [truncated, originally "
    ++ natStr observation.length ++ lit " chars]"

/-- `_truncate_observation(observation, max_length=1500)`.

A no-op within `maxLength`.  Otherwise, when the payload parses as a JSON
dict whose `items` entry is a list, the list is cut to its first 3 items and,
when more than 3 were present, a `note` entry is added; the modified dict is
re-serialized with `indent=2`.  In every other case (parse failure, non-dict
payload, no list-valued `items` entry — all of which fall through or raise
into the bare `except`), the plain-truncation fallback is returned. -/
def truncateObservation (maxLength : Nat) (observation : List Char) : List Char :=
  if observation.length ≤ maxLength then observation
  else
    match loads observation with
    | some (Json.obj kvs) =>
      match jlookup kvs itemsKey with
      | some (Json.arr items) =>
        let kvs1 := objInsert kvs itemsKey (Json.arr (items.take 3))
        let kvs2 :=
          if 3 < items.length then objInsert kvs1 noteKey (Json.str (noteText items.length))
          else kvs1
        dumps2 (Json.obj kvs2)
      | _ => truncFallback maxLength observation
    | _ => truncFallback maxLength observation

/-! ## `ReActAgent._extract_final_answer` (the spec's AnswerExtractor)

`agent.py`, lines 735-811. -/

def thoughtMarker : List Char := lit "Thought:"

def actionMarker : List Char := lit "Action:"

def observationMarker : List Char := lit "Observation:"

def finalAnswerMarker : List Char := lit "Final Answer:"

def finalAnswerLower : List Char := lit "final answer:"

/-- The `simulation_patterns` list of the source. -/
def simulationPatterns : List (List Char) :=
  [lit "Step 1:", lit "Step 2:", lit "Step 3:", lit "### Step", lit "## Step"]

/-- The early rejection guard of `_extract_final_answer`:
`has_simulation_pattern or observation_in_text or thought_count > 1 or
action_count > 1`. -/
def extractReject (text : List Char) : Bool :=
  simulationPatterns.any (fun p => pyContains text p)
    || pyContains text observationMarker
    || decide (1 < pyCount text thoughtMarker)
    || decide (1 < pyCount text actionMarker)

/-- A line whose stripped form starts with the terminal-answer marker
(`stripped.startswith("Final Answer:") or
stripped.lower().startswith("final answer:")`). -/
def isFinalAnswerLine (line : List Char) : Bool :=
  pyStartsWith (pyStrip line) finalAnswerMarker
    || pyStartsWith (pyLower (pyStrip line)) finalAnswerLower

/-- `'{' in text[text.find(line):]`. -/
def hasBraceFrom (text line : List Char) : Bool :=
  match pyFind text line with
  | some i => (text.drop i).contains '{'
  | none => false

/-- The per-line action test of `_extract_final_answer`:
`"Action:" in line and '{' in text[text.find(line):]`. -/
def isActionLine (text line : List Char) : Bool :=
  pyContains line actionMarker && hasBraceFrom text line

/-- The enumeration loop computing the index of the last line satisfying `p`
(`-1` when none does). -/
def lastIdxGo (p : List Char → Bool) : List (List Char) → Nat → Int → Int
  | [], _, acc => acc
  | l :: ls, i, acc => lastIdxGo p ls (i + 1) (if p l then (i : Int) else acc)

def lastIdxI (p : List Char → Bool) (lines : List (List Char)) : Int :=
  lastIdxGo p lines 0 (-1)

/-- The answer text assembled from line `k` (lines 791-805 of the source):
everything after the marker on that line, stripped, plus all later lines. -/
def answerFromIdx (lines : List (List Char)) (k : Nat) : List Char :=
  let line := lines.getD k []
  let answer :=
    if pyContains line finalAnswerMarker then
      pyStrip (afterFirst line finalAnswerMarker)
    else
      let idx : Int :=
        match pyFind (pyLower line) finalAnswerLower with
        | some i => (i : Int)
        | none => -1
      pyStrip (line.drop (idx + 13).toNat)
  let remaining := lines.drop (k + 1)
  if remaining.isEmpty then answer else answer ++ '\n' :: joinLines remaining

/-- `_extract_final_answer(text)`. -/
def extractFinalAnswer (text : List Char) : Option (List Char) :=
  if extractReject text then none
  else
    let lines := pySplitLines text
    let faIdx := lastIdxI isFinalAnswerLine lines
    let acIdx := lastIdxI (isActionLine text) lines
    if acIdx > faIdx ∧ faIdx ≠ -1 then none
    else if faIdx = -1 then none
    else
      let answer := answerFromIdx lines faIdx.toNat
      if answer ≠ [] ∧ pyStrip answer ≠ [] then some (pyStrip answer) else none

/-! ## `ReActAgent._parse_action` (the spec's ActionParser)

`agent.py`, lines 661-733. -/

def toolKey : List Char := lit "tool"

def paramsKey : List Char := lit "parameters"

/-- Python `key in v` for a string `key` and an arbitrary value `v`: key test
on dicts, membership on lists, substring test on strings, and a `TypeError`
(modelled as `Except.error`) on the remaining types. -/
def pyInE (key : List Char) : Json → Except (List Char) Bool
  | .obj kvs => .ok (jlookup kvs key).isSome
  | .arr xs => .ok (xs.any (fun v => jeqStr v key))
  | .str s => .ok (pyContains s key)
  | _ => .error (lit "argument of type is not iterable")

/-- `'tool' in action and 'parameters' in action` (short-circuiting). -/
def hasToolParamsE (a : Json) : Except (List Char) Bool := do
  let t ← pyInE toolKey a
  if t then pyInE paramsKey a else pure false

/-- The brace-counting scan of `_parse_action` method 1, starting at the
first `{`: the span up to the brace that returns the count to zero. -/
def braceSpanGo : List Char → Int → List Char → Option (List Char)
  | [], _, _ => none
  | c :: cs, count, acc =>
    if c = '{' then braceSpanGo cs (count + 1) (c :: acc)
    else if c = '}' then
      if count - 1 = 0 then some ((c :: acc).reverse)
      else braceSpanGo cs (count - 1) (c :: acc)
    else braceSpanGo cs count (c :: acc)

def braceSpan (s : List Char) : Option (List Char) := braceSpanGo s 0 []

/-- The searchable text of methods 2 and 3: everything before the first
terminal-answer marker (exact-case first, else case-insensitive). -/
def searchTextOf (text : List Char) : List Char :=
  if pyContains text finalAnswerMarker then beforeFirst text finalAnswerMarker
  else if pyContains (pyLower text) finalAnswerLower then
    match pyFind (pyLower text) finalAnswerLower with
    | some i => text.take i
    | none => text
  else text

/-- Python `s.rfind(c)` for a single character. -/
def pyRFindChar (s : List Char) (c : Char) : Option Nat :=
  match pyFind s.reverse [c] with
  | some i => some (s.length - 1 - i)
  | none => none

/-- `(takeWhile, dropWhile)` at the first brace character, the building block
of the regex `\x7b[^\x7b\x7d]*\x7d` alternatives of method 3. -/
def breakBrace (s : List Char) : List Char × List Char :=
  (s.takeWhile (fun c => !(c == '{' || c == '}')),
   s.dropWhile (fun c => !(c == '{' || c == '}')))

/-- Matching the one-level-nested alternative of the method-3 regex at a
position whose character is `{`, on the remaining input `cs`:
succeeds exactly when the next three brace characters are `{`, `}`, `}`. -/
def tryAlt1 (cs : List Char) : Option (List Char × List Char) :=
  match breakBrace cs with
  | (p1, '{' :: r1) =>
    match breakBrace r1 with
    | (p2, '}' :: r2) =>
      match breakBrace r2 with
      | (p3, '}' :: r3) =>
        some ('{' :: (p1 ++ '{' :: (p2 ++ '}' :: (p3 ++ ['}']))), r3)
      | _ => none
    | _ => none
  | _ => none

/-- Matching the flat alternative of the method-3 regex: succeeds exactly
when the next brace character is `}`. -/
def tryAlt2 (cs : List Char) : Option (List Char × List Char) :=
  match breakBrace cs with
  | (pre, '}' :: r) => some ('{' :: (pre ++ ['}']), r)
  | _ => none

/-- `re.findall` of the method-3 pattern: scan left to right, prefer the
nested alternative, continue after each non-overlapping match.  The fuel is
structural (supplied as the input length, sufficient since every step
consumes at least one character). -/
def regexMatchesGo : Nat → List Char → List (List Char)
  | 0, _ => []
  | _, [] => []
  | fuel + 1, c :: cs =>
    if c = '{' then
      match tryAlt1 cs with
      | some (m, rest) => m :: regexMatchesGo fuel rest
      | none =>
        match tryAlt2 cs with
        | some (m, rest) => m :: regexMatchesGo fuel rest
        | none => regexMatchesGo fuel cs
    else regexMatchesGo fuel cs

def regexMatches (s : List Char) : List (List Char) := regexMatchesGo s.length s

/-- Method 3's candidate loop: the first regex match that parses as a value
containing both required keys (a candidate that fails to parse, lacks a key,
or raises in the `in` test is skipped by the inner `except: continue`). -/
def findActionIn : List (List Char) → Option Json
  | [] => none
  | m :: ms =>
    match loads m with
    | some a =>
      match hasToolParamsE a with
      | .ok true => some a
      | _ => findActionIn ms
    | none => findActionIn ms

/-- Methods 1 and 2 of `_parse_action`, inside the outer `try`: `.error ()`
models an exception escaping to the `except` clause (which runs method 3),
`.ok (some a)` a successful parse, `.ok none` the fall-through `return None`
at the end of the `try` body. -/
def parseActionTry (text : List Char) : Except Unit (Option Json) :=
  let m1 : Except Unit (Option (Option Json)) :=
    if pyContains text actionMarker then
      match pyFind text actionMarker with
      | some i =>
        let afterAction := pyStrip (text.drop (i + 7))
        match pyFind afterAction ['{'] with
        | some st =>
          match braceSpan (afterAction.drop st) with
          | some jsonStr =>
            match loads jsonStr with
            | some a =>
              match hasToolParamsE a with
              | .ok true => .ok (some (some a))
              | .ok false => .ok none
              | .error _ => .error ()
            | none => .error ()
          | none => .ok none
        | none => .ok none
      | none => .ok none
    else .ok none
  match m1 with
  | .error e => .error e
  | .ok (some r) => .ok r
  | .ok none =>
    let searchText := searchTextOf text
    match pyFind searchText ['{'] with
    | some si =>
      match pyRFindChar searchText '}' with
      | some ei =>
        let jsonStr := (searchText.drop si).take (ei + 1 - si)
        match loads jsonStr with
        | some a =>
          match hasToolParamsE a with
          | .ok true => .ok (some a)
          | .ok false => .ok none
          | .error _ => .error ()
        | none => .error ()
      | none => .ok none
    | none => .ok none

/-- `_parse_action(text)`. -/
def parseAction (text : List Char) : Option Json :=
  match parseActionTry text with
  | .ok r => r
  | .error _ => findActionIn (regexMatches (searchTextOf text))

/-! ## Lemmas about the string primitives -/

theorem pyFind_isSome_iff (s sub : List Char) :
    (pyFind s sub).isSome = true ↔ sub <:+: s := by
  induction s with
  | nil =>
    by_cases h : sub.isPrefixOf ([] : List Char)
    · simp only [pyFind, h, if_true, Option.isSome_some, true_iff]
      exact (List.isPrefixOf_iff_prefix.mp h).isInfix
    · unfold pyFind
      rw [if_neg h]
      constructor
      · intro hft; simp at hft
      · intro hinf
        rw [List.infix_nil] at hinf
        subst hinf
        simp [List.isPrefixOf] at h
  | cons c t ih =>
    by_cases h : sub.isPrefixOf (c :: t)
    · simp only [pyFind, h, if_true, Option.isSome_some, true_iff]
      exact (List.isPrefixOf_iff_prefix.mp h).isInfix
    · unfold pyFind
      rw [if_neg h]
      have hmap : (Option.map (fun x => x + 1) (pyFind t sub)).isSome = (pyFind t sub).isSome := by
        cases pyFind t sub <;> rfl
      rw [hmap, ih, List.infix_cons_iff]
      have hnp : ¬ sub <+: c :: t := fun hp => h (List.isPrefixOf_iff_prefix.mpr hp)
      tauto

theorem pyContains_iff (s sub : List Char) : pyContains s sub = true ↔ sub <:+: s := by
  unfold pyContains
  exact pyFind_isSome_iff s sub

theorem pySplitLines_ne_nil (t : List Char) : pySplitLines t ≠ [] := by
  induction t with
  | nil => simp [pySplitLines]
  | cons c cs ih =>
    unfold pySplitLines
    by_cases h : c = '\n'
    · simp [h]
    · rw [if_neg h]
      cases hs : pySplitLines cs with
      | nil => simp
      | cons l ls => simp

/-- Splitting on newlines and joining with newlines are inverse. -/
theorem joinLines_pySplitLines (t : List Char) : joinLines (pySplitLines t) = t := by
  induction t with
  | nil => simp [pySplitLines, joinLines]
  | cons c cs ih =>
    unfold pySplitLines
    by_cases h : c = '\n'
    · rw [if_pos h]
      cases hs : pySplitLines cs with
      | nil => exact absurd hs (pySplitLines_ne_nil cs)
      | cons l ls =>
        rw [hs] at ih
        subst h
        simp [joinLines, ih]
    · rw [if_neg h]
      cases hs : pySplitLines cs with
      | nil => exact absurd hs (pySplitLines_ne_nil cs)
      | cons l ls =>
        rw [hs] at ih
        cases ls with
        | nil => simp_all [joinLines]
        | cons l2 ls2 => simp_all [joinLines]

/-- The `i`-th line heads the newline-join of the lines from `i` on. -/
theorem getD_isPrefixOf_joinLines_drop (lines : List (List Char)) (i : Nat)
    (hi : i < lines.length) :
    (lines.getD i []).isPrefixOf (joinLines (lines.drop i)) = true := by
  induction lines generalizing i with
  | nil => simp at hi
  | cons l ls ih =>
    cases i with
    | zero =>
      cases ls with
      | nil => simp [joinLines, List.isPrefixOf_iff_prefix]
      | cons l2 ls2 =>
        simp only [List.getD_cons_zero, List.drop_zero, joinLines]
        rw [List.isPrefixOf_iff_prefix]
        exact ⟨'\n' :: joinLines (l2 :: ls2), rfl⟩
    | succ k =>
      simp only [List.getD_cons_succ, List.drop_succ_cons]
      exact ih k (by simpa using hi)

/-- The join of the lines from `i` on is a drop of the full join. -/
theorem joinLines_drop_eq_drop (lines : List (List Char)) (i : Nat)
    (hi : i < lines.length) :
    ∃ p, (joinLines lines).drop p = joinLines (lines.drop i) := by
  induction lines generalizing i with
  | nil => simp at hi
  | cons l ls ih =>
    cases i with
    | zero => exact ⟨0, rfl⟩
    | succ k =>
      have hk : k < ls.length := by simpa using hi
      obtain ⟨p, hp⟩ := ih k hk
      cases ls with
      | nil => simp at hk
      | cons l2 ls2 =>
        refine ⟨l.length + 1 + p, ?_⟩
        simp only [joinLines, List.drop_succ_cons]
        rw [← List.drop_drop]
        have hbase : (l ++ '\n' :: joinLines (l2 :: ls2)).drop (l.length + 1)
            = joinLines (l2 :: ls2) := by
          rw [show l.length + 1 = (l ++ ['\n']).length by simp]
          rw [show l ++ '\n' :: joinLines (l2 :: ls2) = (l ++ ['\n']) ++ joinLines (l2 :: ls2) by simp]
          exact List.drop_left _ _
        rw [hbase]
        exact hp

/-- An occurrence of `sub` at position `p` bounds Python `find` by `p`. -/
theorem pyFind_le_of_isPrefixOf_drop (s sub : List Char) (p : Nat)
    (h : sub.isPrefixOf (s.drop p) = true) :
    ∃ k ≤ p, pyFind s sub = some k := by
  induction p generalizing s with
  | zero =>
    refine ⟨0, Nat.le_refl 0, ?_⟩
    have h0 : sub.isPrefixOf s = true := by simpa using h
    unfold pyFind
    rw [if_pos h0]
  | succ q ih =>
    cases s with
    | nil =>
      refine ⟨0, Nat.zero_le _, ?_⟩
      have hsub : sub = [] := by
        cases sub with
        | nil => rfl
        | cons a t => simp [List.isPrefixOf] at h
      subst hsub
      simp [pyFind, List.isPrefixOf]
    | cons c t =>
      simp only [List.drop_succ_cons] at h
      obtain ⟨k, hk, hfind⟩ := ih t h
      by_cases hpre : sub.isPrefixOf (c :: t)
      · exact ⟨0, Nat.zero_le _, by simp [pyFind, hpre]⟩
      · refine ⟨k + 1, by omega, ?_⟩
        unfold pyFind
        rw [if_neg hpre]
        change Option.map (fun x => x + 1) (pyFind t sub) = some (k + 1)
        rw [hfind]
        rfl

theorem mem_drop_of_mem_drop_le {s : List Char} {c : Char} {k p : Nat}
    (hkp : k ≤ p) (h : c ∈ s.drop p) : c ∈ s.drop k := by
  have : s.drop p = (s.drop k).drop (p - k) := by
    rw [List.drop_drop]
    congr 1
    omega
  rw [this] at h
  exact List.drop_subset _ _ h

/-- Every result of the enumeration loop at accumulator `acc < i` is `≥ acc`. -/
theorem lastIdxGo_ge_acc (p : List Char → Bool) (ls : List (List Char)) (i : Nat)
    (acc : Int) (hacc : acc < (i : Int)) : acc ≤ lastIdxGo p ls i acc := by
  induction ls generalizing i acc with
  | nil => simp [lastIdxGo]
  | cons l ls ih =>
    unfold lastIdxGo
    by_cases hp : p l
    · rw [if_pos hp]
      calc acc ≤ (i : Int) := le_of_lt hacc
        _ ≤ lastIdxGo p ls (i + 1) i := ih (i + 1) i (by push_cast; omega)
    · rw [if_neg hp]
      exact ih (i + 1) acc (by push_cast; omega)

/-- A satisfied line bounds the enumeration loop's result from below. -/
theorem lastIdxGo_ge (p : List Char → Bool) (ls : List (List Char)) (i : Nat)
    (acc : Int) (hacc : acc < (i : Int)) (k : Nat) (hk : k < ls.length)
    (hp : p (ls.getD k []) = true) : ((i + k : Nat) : Int) ≤ lastIdxGo p ls i acc := by
  induction ls generalizing i acc k with
  | nil => simp at hk
  | cons l ls ih =>
    cases k with
    | zero =>
      simp only [List.getD_cons_zero] at hp
      unfold lastIdxGo
      rw [if_pos hp]
      have := lastIdxGo_ge_acc p ls (i + 1) i (by push_cast; omega)
      push_cast at this ⊢
      omega
    | succ k2 =>
      simp only [List.getD_cons_succ] at hp
      unfold lastIdxGo
      have hk2 : k2 < ls.length := by simpa using hk
      by_cases hpl : p l
      · rw [if_pos hpl]
        have := ih (i + 1) i (by push_cast; omega) k2 hk2 hp
        push_cast at this ⊢
        omega
      · rw [if_neg hpl]
        have := ih (i + 1) acc (by push_cast; omega) k2 hk2 hp
        push_cast at this ⊢
        omega

/-- The enumeration loop returns either the initial accumulator or the
index of a satisfied line. -/
theorem lastIdxGo_cases (p : List Char → Bool) (ls : List (List Char)) (i : Nat)
    (acc : Int) :
    lastIdxGo p ls i acc = acc ∨
      ∃ k < ls.length, p (ls.getD k []) = true ∧ lastIdxGo p ls i acc = ((i + k : Nat) : Int) := by
  induction ls generalizing i acc with
  | nil => simp [lastIdxGo]
  | cons l ls ih =>
    unfold lastIdxGo
    by_cases hpl : p l
    · rw [if_pos hpl]
      rcases ih (i + 1) (i : Int) with heq | ⟨k, hk, hpk, heq⟩
      · right
        exact ⟨0, by simp, by simpa using hpl, by rw [heq]; push_cast; ring⟩
      · right
        refine ⟨k + 1, by simpa using Nat.succ_lt_succ hk, by simpa using hpk, ?_⟩
        rw [heq]
        push_cast
        ring
    · rw [if_neg hpl]
      rcases ih (i + 1) acc with heq | ⟨k, hk, hpk, heq⟩
      · left; exact heq
      · right
        refine ⟨k + 1, by simpa using Nat.succ_lt_succ hk, by simpa using hpk, ?_⟩
        rw [heq]
        push_cast
        ring

/-! ## Claim C2 -/

/-- **C2.** For every input text that contains one of the source's literal
self-simulated step markers (`"Step 1:"`, `"Step 2:"`, `"Step 3:"`,
`"### Step"`, `"## Step"`) or the literal observation marker
`"Observation:"`, `_extract_final_answer` returns `None` — in particular even
when a line starting with `"Final Answer:"` followed by non-empty content is
present, since no part of the hypothesis restricts the rest of the text. -/
theorem extract_rejects_simulated_steps (text : List Char)
    (h : (∃ p ∈ simulationPatterns, p <:+: text) ∨ observationMarker <:+: text) :
    extractFinalAnswer text = none := by
  have hrej : extractReject text = true := by
    unfold extractReject
    rcases h with ⟨p, hp, hinf⟩ | hinf
    · have hc : simulationPatterns.any (fun p => pyContains text p) = true := by
        rw [List.any_eq_true]
        exact ⟨p, hp, (pyContains_iff text p).mpr hinf⟩
      simp [hc]
    · have hc : pyContains text observationMarker = true := (pyContains_iff _ _).mpr hinf
      simp [hc]
  simp [extractFinalAnswer, hrej]

/-- Witness for C2: a response that simulates a step 2 and also carries a
well-formed final-answer line is nevertheless rejected. -/
theorem extract_rejects_simulated_steps_witness :
    ((∃ p ∈ simulationPatterns, p <:+: lit "Step 2:\nFinal Answer: 42") ∨
      observationMarker <:+: lit "Step 2:\nFinal Answer: 42") ∧
    extractFinalAnswer (lit "Step 2:\nFinal Answer: 42") = none := by
  refine ⟨Or.inl ⟨lit "Step 2:", by decide, by decide⟩, ?_⟩
  exact extract_rejects_simulated_steps _ (Or.inl ⟨lit "Step 2:", by decide, by decide⟩)

/-! ## Claim C4 -/

/-- **C4.** If some line of the text contains the structured action marker
`"Action:"` with an opening brace at or after that line, and that line lies
strictly below every line starting (after stripping) with the terminal-answer
marker — while at least one such terminal-answer line exists —
then `_extract_final_answer` returns `None`. -/
theorem extract_none_of_action_after_answer (text : List Char) (i : Nat)
    (hlen : i < (pySplitLines text).length)
    (hact : pyContains ((pySplitLines text).getD i []) actionMarker = true)
    (hbrace : '{' ∈ joinLines ((pySplitLines text).drop i))
    (hfa : ∃ j, j < (pySplitLines text).length ∧
      isFinalAnswerLine ((pySplitLines text).getD j []) = true)
    (hall : ∀ j, j < (pySplitLines text).length →
      isFinalAnswerLine ((pySplitLines text).getD j []) = true → j < i) :
    extractFinalAnswer text = none := by
  unfold extractFinalAnswer
  by_cases hrej : extractReject text = true
  · rw [if_pos hrej]
  · rw [if_neg hrej]
    have htext : joinLines (pySplitLines text) = text := joinLines_pySplitLines text
    have hpre := getD_isPrefixOf_joinLines_drop (pySplitLines text) i hlen
    obtain ⟨p, hdrop⟩ := joinLines_drop_eq_drop (pySplitLines text) i hlen
    rw [htext] at hdrop
    have hpre2 : ((pySplitLines text).getD i []).isPrefixOf (text.drop p) = true := by
      rw [hdrop]; exact hpre
    obtain ⟨k, hk, hfind⟩ :=
      pyFind_le_of_isPrefixOf_drop text ((pySplitLines text).getD i []) p hpre2
    have hbr : '{' ∈ text.drop k := by
      apply mem_drop_of_mem_drop_le hk
      rw [hdrop]
      exact hbrace
    have hcode : isActionLine text ((pySplitLines text).getD i []) = true := by
      unfold isActionLine hasBraceFrom
      rw [hfind, hact]
      simpa [List.contains] using hbr
    have hac : (i : Int) ≤ lastIdxI (isActionLine text) (pySplitLines text) := by
      have := lastIdxGo_ge (isActionLine text) (pySplitLines text) 0 (-1)
        (by norm_num) i hlen hcode
      simpa [lastIdxI] using this
    obtain ⟨j, hj, hjp⟩ := hfa
    have hfal : (j : Int) ≤ lastIdxI isFinalAnswerLine (pySplitLines text) := by
      have := lastIdxGo_ge isFinalAnswerLine (pySplitLines text) 0 (-1)
        (by norm_num) j hj hjp
      simpa [lastIdxI] using this
    have hfa_lt : lastIdxI isFinalAnswerLine (pySplitLines text) < (i : Int) := by
      rcases lastIdxGo_cases isFinalAnswerLine (pySplitLines text) 0 (-1) with heq | ⟨k2, hk2, hpk2, heq⟩
      · unfold lastIdxI at hfal
        rw [heq] at hfal
        exfalso
        have : (0 : Int) ≤ (j : Int) := Int.ofNat_nonneg j
        omega
      · have hk2i : k2 < i := hall k2 hk2 hpk2
        unfold lastIdxI
        rw [heq]
        push_cast
        omega
    have hcond : lastIdxI (isActionLine text) (pySplitLines text) >
        lastIdxI isFinalAnswerLine (pySplitLines text) ∧
        lastIdxI isFinalAnswerLine (pySplitLines text) ≠ -1 := by
      constructor
      · omega
      · have : (0 : Int) ≤ (j : Int) := Int.ofNat_nonneg j
        omega
    rw [if_pos hcond]

/-- Witness for C4: an `Action:` line with a brace below the final-answer
line forces rejection. -/
theorem extract_none_of_action_after_answer_witness :
    (1 < (pySplitLines (lit "Final Answer: 42\nAction: \x7b\"tool\": 1\x7d")).length ∧
      pyContains ((pySplitLines (lit "Final Answer: 42\nAction: \x7b\"tool\": 1\x7d")).getD 1 [])
        actionMarker = true) ∧
    extractFinalAnswer (lit "Final Answer: 42\nAction: \x7b\"tool\": 1\x7d") = none := by
  refine ⟨⟨by decide, by decide⟩, ?_⟩
  exact extract_none_of_action_after_answer _ 1 (by decide) (by decide) (by decide)
    ⟨0, by decide, by decide⟩ (by decide)

/-! ## Claim C9 -/

/-- **C9.** When at least two lines start (after stripping) with the
terminal-answer marker, no early rejection rule fires, the action-after-answer
rule does not fire, and the assembled answer is non-empty, then
`_extract_final_answer` returns the (stripped) content assembled from the
**last** marker line — whose index is `≥ j`, hence strictly after line `i`,
so never the first marker's content position. -/
theorem extract_returns_last_final_answer (text : List Char) (i j : Nat)
    (hij : i < j) (hj : j < (pySplitLines text).length)
    (hip : isFinalAnswerLine ((pySplitLines text).getD i []) = true)
    (hjp : isFinalAnswerLine ((pySplitLines text).getD j []) = true)
    (hrej : extractReject text = false)
    (hnoact : ¬ (lastIdxI (isActionLine text) (pySplitLines text) >
      lastIdxI isFinalAnswerLine (pySplitLines text) ∧
      lastIdxI isFinalAnswerLine (pySplitLines text) ≠ -1))
    (hne : pyStrip (answerFromIdx (pySplitLines text)
      (lastIdxI isFinalAnswerLine (pySplitLines text)).toNat) ≠ []) :
    (j : Int) ≤ lastIdxI isFinalAnswerLine (pySplitLines text) ∧
    extractFinalAnswer text = some (pyStrip (answerFromIdx (pySplitLines text)
      (lastIdxI isFinalAnswerLine (pySplitLines text)).toNat)) := by
  have hfal : (j : Int) ≤ lastIdxI isFinalAnswerLine (pySplitLines text) := by
    have := lastIdxGo_ge isFinalAnswerLine (pySplitLines text) 0 (-1)
      (by norm_num) j hj hjp
    simpa [lastIdxI] using this
  refine ⟨hfal, ?_⟩
  unfold extractFinalAnswer
  rw [if_neg (by simp [hrej])]
  rw [if_neg hnoact]
  have hfane : ¬ (lastIdxI isFinalAnswerLine (pySplitLines text) = -1) := by
    have : (0 : Int) ≤ (j : Int) := Int.ofNat_nonneg j
    omega
  rw [if_neg hfane]
  have hane : answerFromIdx (pySplitLines text)
      (lastIdxI isFinalAnswerLine (pySplitLines text)).toNat ≠ [] := by
    intro h0
    rw [h0] at hne
    exact hne rfl
  rw [if_pos ⟨hane, hne⟩]

/-- Witness for C9: with two final-answer lines, the second one's content is
returned. -/
theorem extract_returns_last_final_answer_witness :
    ((1 : Int) ≤ lastIdxI isFinalAnswerLine
      (pySplitLines (lit "Final Answer: first\nFinal Answer: second")) ∧
    extractFinalAnswer (lit "Final Answer: first\nFinal Answer: second") =
      some (pyStrip (answerFromIdx
        (pySplitLines (lit "Final Answer: first\nFinal Answer: second"))
        (lastIdxI isFinalAnswerLine
          (pySplitLines (lit "Final Answer: first\nFinal Answer: second"))).toNat))) ∧
    extractFinalAnswer (lit "Final Answer: first\nFinal Answer: second") =
      some (lit "second") := by
  constructor
  · exact extract_returns_last_final_answer _ 0 1 (by decide) (by decide)
      (by decide) (by decide) (by decide) (by decide) (by decide)
  · decide

/-! ## Dict-insertion lemmas -/

theorem jlookup_objInsert_self (d : List (List Char × Json)) (k : List Char) (v : Json) :
    jlookup (objInsert d k v) k = some v := by
  induction d with
  | nil => simp [objInsert, jlookup]
  | cons kv rest ih =>
    obtain ⟨k0, v0⟩ := kv
    by_cases h : k0 = k
    · simp [objInsert, h, jlookup]
    · simp [objInsert, h, jlookup, ih]

theorem jlookup_objInsert_other (d : List (List Char × Json)) (k k' : List Char)
    (v : Json) (h : k' ≠ k) : jlookup (objInsert d k v) k' = jlookup d k' := by
  induction d with
  | nil =>
    simp only [objInsert, jlookup]
    rw [if_neg (fun hh => h hh.symm)]
  | cons kv rest ih =>
    obtain ⟨k0, v0⟩ := kv
    by_cases h0 : k0 = k
    · subst h0
      simp only [objInsert, if_pos rfl, jlookup]
      rw [if_neg (fun hh => h hh.symm), if_neg (fun hh => h hh.symm)]
    · simp only [objInsert, if_neg h0, jlookup]
      by_cases h1 : k0 = k'
      · rw [if_pos h1, if_pos h1]
      · rw [if_neg h1, if_neg h1]
        exact ih

/-! ## Claim C7 -/

/-- The concrete serialized list-bearing result used against C7: four items,
41 characters, well within the default budget of 1500. -/
def cexC7 : List Char := lit "\x7b\"total_count\": 4, \"items\": [1, 2, 3, 4]\x7d"

/-- Counterexample to C7 as stated: a serialized list-bearing result with 4
items whose serialization is within `maxLength` is returned unchanged by
`_truncate_observation`, so it carries no "Showing 3 of N" annotation even
though its list has 4 ≥ 4 items. -/
theorem compress_boundary_counterexample :
    loads cexC7 = some (Json.obj [(lit "total_count", Json.num 4),
      (itemsKey, Json.arr [Json.num 1, Json.num 2, Json.num 3, Json.num 4])]) ∧
    truncateObservation 1500 cexC7 = cexC7 ∧
    pyContains (truncateObservation 1500 cexC7) (lit "Showing 3 of") = false := by
  refine ⟨rfl, rfl, by decide⟩

/-- **C7 (amended).** For an *oversized* serialized list-bearing result that
is not already annotated, the compressed output is the re-serialization of a
dict that carries the "Showing 3 of N" note exactly when the list had 4 or
more items — and whose `items` entry is cut to the first 3 items. -/
theorem compress_annotates_iff_more_than_3 (maxLen : Nat) (s : List Char)
    (kvs : List (List Char × Json)) (items : List Json)
    (hload : loads s = some (Json.obj kvs))
    (hitems : jlookup kvs itemsKey = some (Json.arr items))
    (hlong : maxLen < s.length)
    (hnonote : jlookup kvs noteKey = none) :
    ∃ kvs2, truncateObservation maxLen s = dumps2 (Json.obj kvs2) ∧
      jlookup kvs2 noteKey =
        (if 3 < items.length then some (Json.str (noteText items.length)) else none) ∧
      jlookup kvs2 itemsKey = some (Json.arr (items.take 3)) := by
  unfold truncateObservation
  rw [if_neg (by omega), hload]
  dsimp only
  rw [hitems]
  dsimp only
  by_cases h3 : 3 < items.length
  · rw [if_pos h3]
    refine ⟨_, rfl, ?_, ?_⟩
    · rw [if_pos h3]
      exact jlookup_objInsert_self _ _ _
    · rw [jlookup_objInsert_other _ _ _ _ (by decide)]
      exact jlookup_objInsert_self _ _ _
  · rw [if_neg h3]
    refine ⟨_, rfl, ?_, ?_⟩
    · rw [if_neg h3]
      rw [jlookup_objInsert_other _ _ _ _ (by decide)]
      exact hnonote
    · exact jlookup_objInsert_self _ _ _

/-- Witness for the amended C7, on an oversized 4-item result with
`maxLength = 10`: the output is annotated. -/
theorem compress_annotates_iff_more_than_3_witness :
    ∃ kvs2, truncateObservation 10 cexC7 = dumps2 (Json.obj kvs2) ∧
      jlookup kvs2 noteKey = some (Json.str (noteText 4)) ∧
      jlookup kvs2 itemsKey = some (Json.arr [Json.num 1, Json.num 2, Json.num 3]) := by
  have h := compress_annotates_iff_more_than_3 10 cexC7
    [(lit "total_count", Json.num 4),
      (itemsKey, Json.arr [Json.num 1, Json.num 2, Json.num 3, Json.num 4])]
    [Json.num 1, Json.num 2, Json.num 3, Json.num 4]
    rfl rfl (by decide) rfl
  obtain ⟨kvs2, h1, h2, h3⟩ := h
  refine ⟨kvs2, h1, ?_, ?_⟩
  · rw [h2, if_pos (by decide)]
    rfl
  · rw [h3]
    rfl

/-! ## Claim C6: counterexample -/

/-- Counterexample to C6 as stated: the hard-truncation fallback is not
idempotent, because re-compressing appends a marker naming the *new* length.
Here `"aaaaaaa"` at `maxLength = 5` compresses to
`"aaaaa\n... [truncated, originally 7 chars]"`, which re-compresses to
`"aaaaa\n... [truncated, originally 41 chars]"`. -/
theorem compress_not_idempotent_counterexample :
    truncateObservation 5 (truncateObservation 5 (lit "aaaaaaa")) ≠
      truncateObservation 5 (lit "aaaaaaa") := by
  decide

/-! ## The serialize/parse round trip

`json.dumps` output is parsed back by `json.loads` to the same value.  The
source relies on this when it re-serializes a compressed observation that may
be compressed again.  The development below proves
`loads (dumpsVal pretty lvl v) = some v` for every well-formed value
(well-formed: every dict has distinct keys, which is an invariant of every
dict `loads` itself produces). -/

def AllWs (pre : List Char) : Prop := ∀ c ∈ pre, isJsonWs c = true

theorem skipWs_append_cons (pre : List Char) (c : Char) (t : List Char)
    (hpre : AllWs pre) (hc : isJsonWs c = false) :
    skipWs (pre ++ c :: t) = c :: t := by
  induction pre with
  | nil => simp [skipWs, List.dropWhile_cons, hc]
  | cons a pre ih =>
    have ha : isJsonWs a = true := hpre a (by simp)
    simp only [List.cons_append, skipWs, List.dropWhile_cons, ha, if_true]
    exact ih (fun c2 hc2 => hpre c2 (by simp [hc2]))

theorem char_ne_of_toNat_ne {c d : Char} (h : c.toNat ≠ d.toNat) : c ≠ d :=
  fun he => h (he ▸ rfl)

theorem digitChar_toNat_lt (n : Nat) (h : n < 10) : (digitChar n).toNat = 48 + n := by
  interval_cases n <;> rfl

theorem digitChar_toNat_bounds (n : Nat) :
    48 ≤ (digitChar n).toNat ∧ (digitChar n).toNat ≤ 57 := by
  unfold digitChar
  split <;> decide

theorem isDigitC_digitChar (n : Nat) : isDigitC (digitChar n) = true := by
  have := digitChar_toNat_bounds n
  simp only [isDigitC, Bool.and_eq_true, decide_eq_true_eq]
  omega

theorem digitVal_digitChar (n : Nat) (h : n < 10) : digitVal (digitChar n) = n := by
  unfold digitVal
  rw [digitChar_toNat_lt n h]
  omega

theorem natStrGo_head (fuel n : Nat) :
    ∃ d t, natStrGo fuel n = d :: t ∧ isDigitC d = true := by
  induction fuel generalizing n with
  | zero => exact ⟨digitChar n, [], rfl, isDigitC_digitChar n⟩
  | succ f ih =>
    unfold natStrGo
    by_cases h : n < 10
    · rw [if_pos h]
      exact ⟨digitChar n, [], rfl, isDigitC_digitChar n⟩
    · rw [if_neg h]
      obtain ⟨d, t, heq, hd⟩ := ih (n / 10)
      exact ⟨d, t ++ [digitChar (n % 10)], by rw [heq]; rfl, hd⟩

theorem parseDigits_natStrGo (fuel : Nat) :
    ∀ n, n ≤ fuel → ∀ acc rest, parseDigits (natStrGo fuel n ++ rest) acc =
      parseDigits rest (acc * 10 ^ (natStrGo fuel n).length + n) := by
  induction fuel with
  | zero =>
    intro n hn acc rest
    have h0 : n = 0 := Nat.le_zero.mp hn
    subst h0
    show parseDigits (digitChar 0 :: rest) acc = _
    rw [parseDigits, if_pos (isDigitC_digitChar 0), digitVal_digitChar 0 (by omega)]
    norm_num [natStrGo]
  | succ f ih =>
    intro n hn acc rest
    by_cases h : n < 10
    · unfold natStrGo
      rw [if_pos h]
      show parseDigits (digitChar n :: rest) acc = _
      rw [parseDigits, if_pos (isDigitC_digitChar n), digitVal_digitChar n h]
      norm_num
    · unfold natStrGo
      rw [if_neg h]
      have hdiv : n / 10 ≤ f := by
        have := Nat.div_lt_self (show 0 < n by omega) (show 1 < 10 by omega)
        omega
      rw [List.append_assoc, ih (n / 10) hdiv acc ([digitChar (n % 10)] ++ rest)]
      show parseDigits (digitChar (n % 10) :: rest) _ = _
      rw [parseDigits, if_pos (isDigitC_digitChar (n % 10)),
        digitVal_digitChar (n % 10) (Nat.mod_lt _ (by omega))]
      have harg : (acc * 10 ^ (natStrGo f (n / 10)).length + n / 10) * 10 + n % 10
          = acc * 10 ^ (natStrGo f (n / 10) ++ [digitChar (n % 10)]).length + n := by
        simp only [List.length_append, List.length_cons, List.length_nil]
        rw [pow_succ]
        have := Nat.div_add_mod n 10
        ring_nf
        omega
      rw [harg]

/-- The head of `rest` is not a decimal digit (so a preceding number token
stops exactly at `rest`). -/
def NoDigitHead (rest : List Char) : Prop :=
  ∀ c t, rest = c :: t → isDigitC c = false

theorem parseDigits_stop (rest : List Char) (v : Nat) (h : NoDigitHead rest) :
    parseDigits rest v = (v, rest) := by
  cases rest with
  | nil => rfl
  | cons c t => rw [parseDigits, if_neg (by simp [h c t rfl])]

theorem parseDigits_natStr_full (n : Nat) (rest : List Char) (h : NoDigitHead rest) :
    parseDigits (natStr n ++ rest) 0 = (n, rest) := by
  unfold natStr
  rw [parseDigits_natStrGo n n (Nat.le_refl _) 0 rest, parseDigits_stop rest _ h]
  simp

theorem parseNumTok_intStr (m : Int) (rest : List Char) (h : NoDigitHead rest) :
    parseNumTok (intStr m ++ rest) = some (m, rest) := by
  obtain ⟨d, t, heq, hd⟩ := natStrGo_head m.natAbs m.natAbs
  have heq' : natStr m.natAbs = d :: t := heq
  have hpd : parseDigits (d :: (t ++ rest)) 0 = (m.natAbs, rest) := by
    rw [show d :: (t ++ rest) = (d :: t) ++ rest by simp, ← heq']
    exact parseDigits_natStr_full m.natAbs rest h
  unfold intStr
  by_cases hm : m < 0
  · rw [if_pos hm, heq']
    show parseNumTok ('-' :: (d :: (t ++ rest))) = some (m, rest)
    rw [parseNumTok, if_pos rfl]
    show (if isDigitC d = true then
      some (-(((parseDigits (d :: (t ++ rest)) 0).1 : Int)),
        (parseDigits (d :: (t ++ rest)) 0).2) else none) = some (m, rest)
    rw [if_pos hd, hpd]
    have hv : -(((m.natAbs : Nat) : Int)) = m := by omega
    rw [show ((m.natAbs, rest).1 : Int) = ((m.natAbs : Nat) : Int) from rfl, hv]
  · rw [if_neg hm, heq']
    show parseNumTok (d :: (t ++ rest)) = some (m, rest)
    rw [parseNumTok.eq_def]
    dsimp only
    have hdne : d ≠ '-' := by
      apply char_ne_of_toNat_ne
      have hb : 48 ≤ d.toNat ∧ d.toNat ≤ 57 := by
        simpa [isDigitC] using hd
      have h45 : ('-').toNat = 45 := by decide
      omega
    rw [if_neg hdne, if_pos hd, hpd]
    have hv : (((m.natAbs : Nat) : Int)) = m := by omega
    rw [show ((m.natAbs, rest).1 : Int) = ((m.natAbs : Nat) : Int) from rfl, hv]

theorem isHexC_hexDigitChar (m : Nat) (h : m < 16) : isHexC (hexDigitChar m) = true := by
  interval_cases m <;> decide

theorem hexVal_hexDigitChar (m : Nat) (h : m < 16) : hexVal (hexDigitChar m) = m := by
  interval_cases m <;> decide

/-- A two-character escape parses to its decoded character. -/
theorem parseStrBody_esc (e d : Char) (he : e ≠ 'u') (hdec : escDecode e = some d)
    (tail : List Char) :
    parseStrBody ('\\' :: e :: tail) =
      (parseStrBody tail).map (fun p => (d :: p.1, p.2)) := by
  rw [parseStrBody.eq_def]
  dsimp only
  rw [if_neg (show ¬ ('\\' = '"') by decide), if_pos rfl, if_neg he, hdec]

/-- Escaping a string and parsing it back (up to the closing quote) yields
the original string. -/
theorem parseStrBody_escape (s : List Char) : ∀ rest,
    parseStrBody (escape s ++ '"' :: rest) = some (s, rest) := by
  induction s with
  | nil =>
    intro rest
    show parseStrBody ('"' :: rest) = some ([], rest)
    rw [parseStrBody.eq_def]
    dsimp only
    rw [if_pos rfl]
  | cons c cs ih =>
    intro rest
    have hesc : escape (c :: cs) = escChar c ++ escape cs := by simp [escape]
    rw [hesc, List.append_assoc]
    unfold escChar
    by_cases h1 : c = '"'
    · rw [if_pos h1, show (['\\', '"'] : List Char) ++ (escape cs ++ '"' :: rest)
        = '\\' :: '"' :: (escape cs ++ '"' :: rest) from rfl]
      rw [parseStrBody_esc '"' '"' (by decide) rfl, ih rest, h1]
      rfl
    rw [if_neg h1]
    by_cases h2 : c = '\\'
    · rw [if_pos h2, show (['\\', '\\'] : List Char) ++ (escape cs ++ '"' :: rest)
        = '\\' :: '\\' :: (escape cs ++ '"' :: rest) from rfl]
      rw [parseStrBody_esc '\\' '\\' (by decide) rfl, ih rest, h2]
      rfl
    rw [if_neg h2]
    by_cases h3 : c = '\n'
    · rw [if_pos h3, show (['\\', 'n'] : List Char) ++ (escape cs ++ '"' :: rest)
        = '\\' :: 'n' :: (escape cs ++ '"' :: rest) from rfl]
      rw [parseStrBody_esc 'n' '\n' (by decide) rfl, ih rest, h3]
      rfl
    rw [if_neg h3]
    by_cases h4 : c = '\t'
    · rw [if_pos h4, show (['\\', 't'] : List Char) ++ (escape cs ++ '"' :: rest)
        = '\\' :: 't' :: (escape cs ++ '"' :: rest) from rfl]
      rw [parseStrBody_esc 't' '\t' (by decide) rfl, ih rest, h4]
      rfl
    rw [if_neg h4]
    by_cases h5 : c = '\r'
    · rw [if_pos h5, show (['\\', 'r'] : List Char) ++ (escape cs ++ '"' :: rest)
        = '\\' :: 'r' :: (escape cs ++ '"' :: rest) from rfl]
      rw [parseStrBody_esc 'r' '\r' (by decide) rfl, ih rest, h5]
      rfl
    rw [if_neg h5]
    by_cases h6 : c = '\x08'
    · rw [if_pos h6, show (['\\', 'b'] : List Char) ++ (escape cs ++ '"' :: rest)
        = '\\' :: 'b' :: (escape cs ++ '"' :: rest) from rfl]
      rw [parseStrBody_esc 'b' '\x08' (by decide) rfl, ih rest, h6]
      rfl
    rw [if_neg h6]
    by_cases h7 : c = '\x0c'
    · rw [if_pos h7, show (['\\', 'f'] : List Char) ++ (escape cs ++ '"' :: rest)
        = '\\' :: 'f' :: (escape cs ++ '"' :: rest) from rfl]
      rw [parseStrBody_esc 'f' '\x0c' (by decide) rfl, ih rest, h7]
      rfl
    rw [if_neg h7]
    by_cases h8 : c.toNat < 32
    · rw [if_pos h8]
      simp only [List.cons_append, List.nil_append]
      rw [parseStrBody.eq_def]
      dsimp only
      rw [if_neg (show ¬ ('\\' = '"') by decide), if_pos rfl, if_pos rfl]
      have hdiv : c.toNat / 16 < 16 := by omega
      have hmod : c.toNat % 16 < 16 := Nat.mod_lt _ (by omega)
      rw [if_pos (by
        rw [isHexC_hexDigitChar _ hdiv, isHexC_hexDigitChar _ hmod]
        decide)]
      rw [ih rest]
      have hval : hexVal '0' * 4096 + hexVal '0' * 256
          + hexVal (hexDigitChar (c.toNat / 16)) * 16 + hexVal (hexDigitChar (c.toNat % 16))
          = c.toNat := by
        rw [hexVal_hexDigitChar _ hdiv, hexVal_hexDigitChar _ hmod]
        have := Nat.div_add_mod c.toNat 16
        have hv0 : hexVal '0' = 0 := by decide
        rw [hv0]
        omega
      rw [Option.map_some']
      rw [hval, Char.ofNat_toNat]
    · rw [if_neg h8]
      simp only [List.cons_append, List.nil_append]
      rw [parseStrBody.eq_def]
      dsimp only
      rw [if_neg h1, if_neg h2, if_neg h8, ih rest]
      rfl

/-! ## Well-formed values and dict-building lemmas -/

mutual

/-- Well-formedness of a JSON value: every dict has pairwise distinct keys.
This is an invariant of everything `loads` produces (Python dicts cannot have
duplicate keys) and is what makes the serialize/parse round trip exact. -/
def jwfV : Json → Prop
  | .arr xs => jwfL xs
  | .obj kvs => (kvs.map Prod.fst).Nodup ∧ jwfO kvs
  | _ => True
termination_by v => sizeOf v
decreasing_by all_goals (simp_wf <;> omega)

def jwfL : List Json → Prop
  | [] => True
  | x :: xs => jwfV x ∧ jwfL xs
termination_by xs => sizeOf xs
decreasing_by all_goals (simp_wf <;> omega)

def jwfO : List (List Char × Json) → Prop
  | [] => True
  | (_, v) :: kvs => jwfV v ∧ jwfO kvs
termination_by kvs => sizeOf kvs
decreasing_by all_goals (simp_wf <;> omega)

end

theorem objInsert_of_not_mem (d : List (List Char × Json)) (k : List Char) (v : Json)
    (h : k ∉ d.map Prod.fst) : objInsert d k v = d ++ [(k, v)] := by
  induction d with
  | nil => rfl
  | cons kv rest ih =>
    obtain ⟨k0, v0⟩ := kv
    simp only [List.map_cons, List.mem_cons, not_or] at h
    have hk0 : ¬ (k0 = k) := fun he => h.1 he.symm
    simp only [objInsert, if_neg hk0, List.cons_append]
    rw [ih h.2]

theorem foldl_objInsert_append (kvs : List (List Char × Json)) :
    ∀ acc, (kvs.map Prod.fst).Nodup →
    (∀ k ∈ kvs.map Prod.fst, k ∉ acc.map Prod.fst) →
    kvs.foldl (fun d kv => objInsert d kv.1 kv.2) acc = acc ++ kvs := by
  induction kvs with
  | nil => intro acc _ _; simp
  | cons kv rest ih =>
    intro acc hnd hdisj
    obtain ⟨k, v⟩ := kv
    simp only [List.foldl_cons]
    have hmem : k ∈ List.map Prod.fst ((k, v) :: rest) := by
      rw [List.map_cons]
      exact List.mem_cons_self _ _
    rw [objInsert_of_not_mem acc k v (hdisj k hmem)]
    simp only [List.map_cons, List.nodup_cons] at hnd
    have hdj2 : ∀ k2 ∈ rest.map Prod.fst, k2 ∉ (acc ++ [(k, v)]).map Prod.fst := by
      intro k2 hk2
      simp only [List.map_append, List.mem_append, List.map_cons, List.map_nil,
        List.mem_singleton, not_or]
      refine ⟨hdisj k2 ?_, fun he => hnd.1 (he ▸ hk2)⟩
      rw [List.map_cons]
      exact List.mem_cons_of_mem _ hk2
    rw [ih (acc ++ [(k, v)]) hnd.2 hdj2]
    simp

/-- Rebuilding a dict with distinct keys pair-by-pair reproduces it. -/
theorem buildObj_self (kvs : List (List Char × Json))
    (hnd : (kvs.map Prod.fst).Nodup) :
    kvs.foldl (fun d kv => objInsert d kv.1 kv.2) [] = kvs := by
  have := foldl_objInsert_append kvs [] hnd (by simp)
  simpa using this

/-- Re-assigning the value a key already has leaves a dict unchanged. -/
theorem objInsert_lookup_self_id (d : List (List Char × Json)) (k : List Char)
    (v : Json) (h : jlookup d k = some v) : objInsert d k v = d := by
  induction d with
  | nil => simp [jlookup] at h
  | cons kv rest ih =>
    obtain ⟨k0, v0⟩ := kv
    by_cases h0 : k0 = k
    · simp only [jlookup, if_pos h0, Option.some.injEq] at h
      simp [objInsert, h0, h]
    · simp only [jlookup, if_neg h0] at h
      simp [objInsert, h0, ih h]

theorem objInsert_map_fst (d : List (List Char × Json)) (k : List Char) (v : Json) :
    (objInsert d k v).map Prod.fst =
      if k ∈ d.map Prod.fst then d.map Prod.fst else d.map Prod.fst ++ [k] := by
  induction d with
  | nil => simp [objInsert]
  | cons kv rest ih =>
    obtain ⟨k0, v0⟩ := kv
    by_cases h0 : k0 = k
    · subst h0
      simp [objInsert]
    · simp only [objInsert, if_neg h0, List.map_cons, ih]
      by_cases hm : k ∈ rest.map Prod.fst
      · rw [if_pos hm, if_pos (by simp [hm])]
      · rw [if_neg hm, if_neg (by simp [hm]; exact fun he => h0 he.symm)]
        simp

theorem nodupKeys_objInsert (d : List (List Char × Json)) (k : List Char) (v : Json)
    (h : (d.map Prod.fst).Nodup) : ((objInsert d k v).map Prod.fst).Nodup := by
  rw [objInsert_map_fst]
  by_cases hm : k ∈ d.map Prod.fst
  · rw [if_pos hm]; exact h
  · rw [if_neg hm, List.nodup_append]
    refine ⟨h, List.nodup_singleton k, ?_⟩
    intro a ha hb
    rw [List.mem_singleton] at hb
    exact hm (hb ▸ ha)

theorem jwfO_objInsert (d : List (List Char × Json)) (k : List Char) (v : Json)
    (hd : jwfO d) (hv : jwfV v) : jwfO (objInsert d k v) := by
  induction d with
  | nil => simpa [objInsert, jwfO] using hv
  | cons kv rest ih =>
    obtain ⟨k0, v0⟩ := kv
    rw [jwfO] at hd
    by_cases h0 : k0 = k
    · simp only [objInsert, if_pos h0]
      rw [jwfO]
      exact ⟨hv, hd.2⟩
    · simp only [objInsert, if_neg h0]
      rw [jwfO]
      exact ⟨hd.1, ih hd.2⟩

theorem allWs_nil : AllWs [] := fun c hc => absurd hc (List.not_mem_nil c)

theorem allWs_spaces (n : Nat) : AllWs (spaces n) := by
  intro c hc
  rw [spaces] at hc
  rw [List.eq_of_mem_replicate hc]
  rfl

theorem allWs_cons (c : Char) (hc : isJsonWs c = true) (l : List Char) (hl : AllWs l) :
    AllWs (c :: l) := by
  intro d hd
  rcases List.mem_cons.mp hd with he | hm
  · rw [he]; exact hc
  · exact hl d hm

theorem ws_not_digit (c : Char) (h : isJsonWs c = true) : isDigitC c = false := by
  simp only [isJsonWs, Bool.or_eq_true, decide_eq_true_eq] at h
  rcases h with (((h | h) | h) | h) <;> (subst h; decide)

theorem noDigitHead_of_head (c : Char) (hc : isDigitC c = false) (t : List Char) :
    NoDigitHead (c :: t) := by
  intro c2 t2 he
  injection he with h1 _
  rw [← h1]
  exact hc

theorem noDigitHead_ws_append (wsc : List Char) (hws : AllWs wsc) (c : Char)
    (hc : isDigitC c = false) (rest : List Char) : NoDigitHead (wsc ++ c :: rest) := by
  cases wsc with
  | nil => exact noDigitHead_of_head c hc rest
  | cons w t =>
    apply noDigitHead_of_head
    exact ws_not_digit w (hws w (by simp))

theorem isPrefixOf_append_self (l r : List Char) : l.isPrefixOf (l ++ r) = true :=
  List.isPrefixOf_iff_prefix.mpr ⟨r, rfl⟩

theorem digit_not_special (d : Char) (h : isDigitC d = true) :
    isJsonWs d = false ∧ d ≠ ']' ∧ d ≠ ',' := by
  have hb : 48 ≤ d.toNat ∧ d.toNat ≤ 57 := by simpa [isDigitC] using h
  have h93 : (']').toNat = 93 := by decide
  have h44 : (',').toNat = 44 := by decide
  have hsp : d ≠ ' ' := char_ne_of_toNat_ne (by
    have : (' ').toNat = 32 := by decide
    omega)
  have htab : d ≠ '\t' := char_ne_of_toNat_ne (by
    have : ('\t').toNat = 9 := by decide
    omega)
  have hnl : d ≠ '\n' := char_ne_of_toNat_ne (by
    have : ('\n').toNat = 10 := by decide
    omega)
  have hcr : d ≠ '\r' := char_ne_of_toNat_ne (by
    have : ('\r').toNat = 13 := by decide
    omega)
  exact ⟨by simp [isJsonWs, hsp, htab, hnl, hcr],
    char_ne_of_toNat_ne (by omega), char_ne_of_toNat_ne (by omega)⟩

theorem skipWs_cons (c : Char) (t : List Char) (hc : isJsonWs c = false) :
    skipWs (c :: t) = c :: t := by
  simp [skipWs, List.dropWhile_cons, hc]

theorem digit_not_dispatch (d : Char) (h : isDigitC d = true) :
    d ≠ '"' ∧ d ≠ '[' ∧ d ≠ '{' ∧ d ≠ 't' ∧ d ≠ 'f' ∧ d ≠ 'n' := by
  have hb : 48 ≤ d.toNat ∧ d.toNat ≤ 57 := by simpa [isDigitC] using h
  have q1 : ('"').toNat = 34 := by decide
  have q2 : ('[').toNat = 91 := by decide
  have q3 : ('{').toNat = 123 := by decide
  have q4 : ('t').toNat = 116 := by decide
  have q5 : ('f').toNat = 102 := by decide
  have q6 : ('n').toNat = 110 := by decide
  exact ⟨char_ne_of_toNat_ne (by omega), char_ne_of_toNat_ne (by omega),
    char_ne_of_toNat_ne (by omega), char_ne_of_toNat_ne (by omega),
    char_ne_of_toNat_ne (by omega), char_ne_of_toNat_ne (by omega)⟩

/-- The serialization of a value begins with a non-whitespace character that
is neither a list-closer nor a comma. -/
theorem dumpsVal_head (pretty : Bool) (lvl : Nat) (v : Json) :
    ∃ c t, dumpsVal pretty lvl v = c :: t ∧ isJsonWs c = false ∧ c ≠ ']' ∧ c ≠ ',' := by
  cases v with
  | null =>
    refine ⟨'n', ['u', 'l', 'l'], by simp [dumpsVal], by decide, by decide, by decide⟩
  | bool b =>
    cases b
    · refine ⟨'f', ['a', 'l', 's', 'e'], by simp [dumpsVal], by decide, by decide, by decide⟩
    · refine ⟨'t', ['r', 'u', 'e'], by simp [dumpsVal], by decide, by decide, by decide⟩
  | num n =>
    by_cases hm : n < 0
    · refine ⟨'-', natStr n.natAbs, ?_, by decide, by decide, by decide⟩
      simp [dumpsVal, intStr, hm]
    · obtain ⟨d, t, heq, hd⟩ := natStrGo_head n.natAbs n.natAbs
      obtain ⟨hws, hne1, hne2⟩ := digit_not_special d hd
      refine ⟨d, t, ?_, hws, hne1, hne2⟩
      simp only [dumpsVal, intStr, if_neg hm]
      exact heq
  | str s =>
    refine ⟨'"', escape s ++ ['"'], by simp [dumpsVal], by decide, by decide, by decide⟩
  | arr xs =>
    cases xs with
    | nil => refine ⟨'[', [']'], by simp [dumpsVal], by decide, by decide, by decide⟩
    | cons x rest =>
      by_cases hp : pretty
      · refine ⟨'[', '\n' :: (spaces (lvl + 2) ++ dumpsItems pretty (lvl + 2) x rest
          ++ '\n' :: (spaces lvl ++ [']'])), ?_, by decide, by decide, by decide⟩
        simp [dumpsVal, hp]
      · refine ⟨'[', dumpsItems pretty lvl x rest ++ [']'], ?_,
          by decide, by decide, by decide⟩
        simp [dumpsVal, hp]
  | obj kvs =>
    cases kvs with
    | nil => refine ⟨'{', ['}'], by simp [dumpsVal], by decide, by decide, by decide⟩
    | cons kv rest =>
      obtain ⟨k, v⟩ := kv
      by_cases hp : pretty
      · refine ⟨'{', '\n' :: (spaces (lvl + 2) ++ dumpsPairs pretty (lvl + 2) k v rest
          ++ '\n' :: (spaces lvl ++ ['}'])), ?_, by decide, by decide, by decide⟩
        simp [dumpsVal, hp]
      · refine ⟨'{', dumpsPairs pretty lvl k v rest ++ ['}'], ?_,
          by decide, by decide, by decide⟩
        simp [dumpsVal, hp]

theorem json_sizeOf_pos (v : Json) : 1 ≤ sizeOf v := by
  cases v <;> simp <;> omega

theorem jsonList_sizeOf_pos (xs : List Json) : 1 ≤ sizeOf xs := by
  cases xs <;> simp <;> omega

theorem jsonObj_sizeOf_pos (kvs : List (List Char × Json)) : 1 ≤ sizeOf kvs := by
  cases kvs <;> simp <;> omega

theorem jwfL_take (n : Nat) (xs : List Json) (h : jwfL xs) : jwfL (xs.take n) := by
  induction xs generalizing n with
  | nil => simpa [jwfL] using h
  | cons x rest ih =>
    cases n with
    | zero =>
      rw [List.take_zero]
      simp [jwfL]
    | succ m =>
      rw [jwfL] at h
      rw [List.take_succ_cons, jwfL]
      exact ⟨h.1, ih m h.2⟩

end VitAI

namespace VitAI

theorem rt_null (fuel : Nat) (hf : 1 ≤ fuel) (pretty : Bool) (lvl : Nat)
    (pre rest : List Char) (hpre : AllWs pre) :
    parseVal fuel (pre ++ (dumpsVal pretty lvl Json.null ++ rest)) = some (Json.null, rest) := by
  obtain ⟨f, rfl⟩ : ∃ f, fuel = f + 1 := ⟨fuel - 1, by omega⟩
  have hd : dumpsVal pretty lvl Json.null = 'n' :: ['u', 'l', 'l'] := by simp [dumpsVal]
  rw [hd]
  rw [show pre ++ ('n' :: ['u', 'l', 'l'] ++ rest) = pre ++ 'n' :: (['u', 'l', 'l'] ++ rest) by simp]
  rw [parseVal]
  rw [skipWs_append_cons pre 'n' (['u', 'l', 'l'] ++ rest) hpre (by decide)]
  dsimp only
  rw [if_neg (show ¬ (('n' : Char) = '"') by decide),
    if_neg (show ¬ (('n' : Char) = '[') by decide),
    if_neg (show ¬ (('n' : Char) = '{') by decide),
    if_neg (show ¬ (('n' : Char) = 't') by decide),
    if_neg (show ¬ (('n' : Char) = 'f') by decide), if_pos rfl]
  rw [if_pos (isPrefixOf_append_self ['u', 'l', 'l'] rest)]
  rw [show (['u', 'l', 'l'] ++ rest).drop 3 = rest from rfl]

theorem rt_bool (b : Bool) (fuel : Nat) (hf : 1 ≤ fuel) (pretty : Bool) (lvl : Nat)
    (pre rest : List Char) (hpre : AllWs pre) :
    parseVal fuel (pre ++ (dumpsVal pretty lvl (Json.bool b) ++ rest)) = some (Json.bool b, rest) := by
  obtain ⟨f, rfl⟩ : ∃ f, fuel = f + 1 := ⟨fuel - 1, by omega⟩
  cases b
  · have hd : dumpsVal pretty lvl (Json.bool false) = 'f' :: ['a', 'l', 's', 'e'] := by
      simp [dumpsVal]
    rw [hd]
    rw [show pre ++ ('f' :: ['a', 'l', 's', 'e'] ++ rest)
      = pre ++ 'f' :: (['a', 'l', 's', 'e'] ++ rest) by simp]
    rw [parseVal]
    rw [skipWs_append_cons pre 'f' (['a', 'l', 's', 'e'] ++ rest) hpre (by decide)]
    dsimp only
    rw [if_neg (show ¬ (('f' : Char) = '"') by decide),
      if_neg (show ¬ (('f' : Char) = '[') by decide),
      if_neg (show ¬ (('f' : Char) = '{') by decide),
      if_neg (show ¬ (('f' : Char) = 't') by decide), if_pos rfl]
    rw [if_pos (isPrefixOf_append_self ['a', 'l', 's', 'e'] rest)]
    rw [show (['a', 'l', 's', 'e'] ++ rest).drop 4 = rest from rfl]
  · have hd : dumpsVal pretty lvl (Json.bool true) = 't' :: ['r', 'u', 'e'] := by
      simp [dumpsVal]
    rw [hd]
    rw [show pre ++ ('t' :: ['r', 'u', 'e'] ++ rest)
      = pre ++ 't' :: (['r', 'u', 'e'] ++ rest) by simp]
    rw [parseVal]
    rw [skipWs_append_cons pre 't' (['r', 'u', 'e'] ++ rest) hpre (by decide)]
    dsimp only
    rw [if_neg (show ¬ (('t' : Char) = '"') by decide),
      if_neg (show ¬ (('t' : Char) = '[') by decide),
      if_neg (show ¬ (('t' : Char) = '{') by decide), if_pos rfl]
    rw [if_pos (isPrefixOf_append_self ['r', 'u', 'e'] rest)]
    rw [show (['r', 'u', 'e'] ++ rest).drop 3 = rest from rfl]

theorem rt_str (s : List Char) (fuel : Nat) (hf : 1 ≤ fuel) (pretty : Bool) (lvl : Nat)
    (pre rest : List Char) (hpre : AllWs pre) :
    parseVal fuel (pre ++ (dumpsVal pretty lvl (Json.str s) ++ rest)) = some (Json.str s, rest) := by
  obtain ⟨f, rfl⟩ : ∃ f, fuel = f + 1 := ⟨fuel - 1, by omega⟩
  have hd : dumpsVal pretty lvl (Json.str s) = '"' :: (escape s ++ ['"']) := by
    simp [dumpsVal]
  rw [hd]
  rw [show pre ++ ('"' :: (escape s ++ ['"']) ++ rest)
    = pre ++ '"' :: (escape s ++ '"' :: rest) by simp]
  rw [parseVal]
  rw [skipWs_append_cons pre '"' (escape s ++ '"' :: rest) hpre (by decide)]
  dsimp only
  rw [if_pos rfl]
  rw [parseStrBody_escape s rest]
  rfl

theorem rt_num (n : Int) (fuel : Nat) (hf : 1 ≤ fuel) (pretty : Bool) (lvl : Nat)
    (pre rest : List Char) (hpre : AllWs pre) (hrest : NoDigitHead rest) :
    parseVal fuel (pre ++ (dumpsVal pretty lvl (Json.num n) ++ rest)) = some (Json.num n, rest) := by
  obtain ⟨f, rfl⟩ : ∃ f, fuel = f + 1 := ⟨fuel - 1, by omega⟩
  have hd : dumpsVal pretty lvl (Json.num n) = intStr n := by simp [dumpsVal]
  rw [hd]
  by_cases hm : n < 0
  · have hi : intStr n = '-' :: natStr n.natAbs := by simp [intStr, hm]
    rw [hi]
    rw [show pre ++ ('-' :: natStr n.natAbs ++ rest)
      = pre ++ '-' :: (natStr n.natAbs ++ rest) by simp]
    rw [parseVal]
    rw [skipWs_append_cons pre '-' (natStr n.natAbs ++ rest) hpre (by decide)]
    dsimp only
    rw [if_neg (show ¬ (('-' : Char) = '"') by decide),
      if_neg (show ¬ (('-' : Char) = '[') by decide),
      if_neg (show ¬ (('-' : Char) = '{') by decide),
      if_neg (show ¬ (('-' : Char) = 't') by decide),
      if_neg (show ¬ (('-' : Char) = 'f') by decide),
      if_neg (show ¬ (('-' : Char) = 'n') by decide)]
    rw [show ('-' :: (natStr n.natAbs ++ rest)) = intStr n ++ rest by simp [intStr, hm]]
    rw [parseNumTok_intStr n rest hrest]
    rfl
  · have hi : intStr n = natStr n.natAbs := by simp [intStr, hm]
    obtain ⟨d, t, heq, hdig⟩ := natStrGo_head n.natAbs n.natAbs
    have heq' : natStr n.natAbs = d :: t := heq
    rw [hi, heq']
    obtain ⟨hne1, hne2, hne3, hne4, hne5, hne6⟩ := digit_not_dispatch d hdig
    obtain ⟨hws, _, _⟩ := digit_not_special d hdig
    rw [show pre ++ ((d :: t) ++ rest) = pre ++ d :: (t ++ rest) by simp]
    rw [parseVal]
    rw [skipWs_append_cons pre d (t ++ rest) hpre hws]
    dsimp only
    rw [if_neg hne1, if_neg hne2, if_neg hne3, if_neg hne4, if_neg hne5, if_neg hne6]
    rw [show (d :: (t ++ rest)) = intStr n ++ rest by simp [intStr, hm, heq']]
    rw [parseNumTok_intStr n rest hrest]
    rfl

theorem rt_arr_nil (fuel : Nat) (hf : 2 ≤ fuel) (pretty : Bool) (lvl : Nat)
    (pre rest : List Char) (hpre : AllWs pre) :
    parseVal fuel (pre ++ (dumpsVal pretty lvl (Json.arr []) ++ rest)) = some (Json.arr [], rest) := by
  obtain ⟨f, rfl⟩ : ∃ f, fuel = f + 1 := ⟨fuel - 1, by omega⟩
  obtain ⟨f2, rfl⟩ : ∃ f2, f = f2 + 1 := ⟨f - 1, by omega⟩
  have hd : dumpsVal pretty lvl (Json.arr []) = '[' :: [']'] := by simp [dumpsVal]
  rw [hd]
  rw [show pre ++ ('[' :: [']'] ++ rest) = pre ++ '[' :: (']' :: rest) by simp]
  rw [parseVal]
  rw [skipWs_append_cons pre '[' (']' :: rest) hpre (by decide)]
  dsimp only
  rw [if_neg (show ¬ (('[' : Char) = '"') by decide), if_pos rfl]
  rw [parseArrItems]
  rw [skipWs_cons ']' rest (by decide)]
  rfl

theorem rt_obj_nil (fuel : Nat) (hf : 2 ≤ fuel) (pretty : Bool) (lvl : Nat)
    (pre rest : List Char) (hpre : AllWs pre) :
    parseVal fuel (pre ++ (dumpsVal pretty lvl (Json.obj []) ++ rest)) = some (Json.obj [], rest) := by
  obtain ⟨f, rfl⟩ : ∃ f, fuel = f + 1 := ⟨fuel - 1, by omega⟩
  obtain ⟨f2, rfl⟩ : ∃ f2, f = f2 + 1 := ⟨f - 1, by omega⟩
  have hd : dumpsVal pretty lvl (Json.obj []) = '{' :: ['}'] := by simp [dumpsVal]
  rw [hd]
  rw [show pre ++ ('{' :: ['}'] ++ rest) = pre ++ '{' :: ('}' :: rest) by simp]
  rw [parseVal]
  rw [skipWs_append_cons pre '{' ('}' :: rest) hpre (by decide)]
  dsimp only
  rw [if_neg (show ¬ (('{' : Char) = '"') by decide),
    if_neg (show ¬ (('{' : Char) = '[') by decide), if_pos rfl]
  rw [parseObjItems]
  rw [skipWs_cons '}' rest (by decide)]
  rfl

end VitAI

namespace VitAI

theorem rt_arr_cons (x : Json) (xs : List Json) (f : Nat)
    (pretty : Bool) (lvl : Nat) (pre rest : List Char) (hpre : AllWs pre)
    (hA : ∀ pre2 wsc2 : List Char, AllWs pre2 → AllWs wsc2 →
      parseArrItems f (pre2 ++ (dumpsItems pretty (if pretty then lvl + 2 else lvl) x xs
        ++ (wsc2 ++ ']' :: rest))) = some (x :: xs, rest)) :
    parseVal (f + 1) (pre ++ (dumpsVal pretty lvl (Json.arr (x :: xs)) ++ rest)) =
      some (Json.arr (x :: xs), rest) := by
  by_cases hp : pretty = true
  · have hd : dumpsVal pretty lvl (Json.arr (x :: xs))
        = '[' :: ('\n' :: (spaces (lvl + 2) ++ dumpsItems pretty (lvl + 2) x xs
          ++ '\n' :: (spaces lvl ++ [']']))) := by simp [dumpsVal, hp]
    rw [hd]
    rw [show pre ++ (('[' :: ('\n' :: (spaces (lvl + 2) ++ dumpsItems pretty (lvl + 2) x xs
          ++ '\n' :: (spaces lvl ++ [']'])))) ++ rest)
      = pre ++ '[' :: (('\n' :: spaces (lvl + 2)) ++ (dumpsItems pretty (lvl + 2) x xs
          ++ (('\n' :: spaces lvl) ++ ']' :: rest))) by simp]
    rw [parseVal]
    rw [skipWs_append_cons pre '[' _ hpre (by decide)]
    dsimp only
    rw [if_neg (show ¬ (('[' : Char) = '"') by decide), if_pos rfl]
    have hA' := hA ('\n' :: spaces (lvl + 2)) ('\n' :: spaces lvl)
      (allWs_cons '\n' (by decide) _ (allWs_spaces _))
      (allWs_cons '\n' (by decide) _ (allWs_spaces _))
    rw [if_pos hp] at hA'
    rw [hA']
    rfl
  · have hd : dumpsVal pretty lvl (Json.arr (x :: xs))
        = '[' :: (dumpsItems pretty lvl x xs ++ [']']) := by simp [dumpsVal, hp]
    rw [hd]
    rw [show pre ++ (('[' :: (dumpsItems pretty lvl x xs ++ [']'])) ++ rest)
      = pre ++ '[' :: ([] ++ (dumpsItems pretty lvl x xs ++ ([] ++ ']' :: rest))) by simp]
    rw [parseVal]
    rw [skipWs_append_cons pre '[' _ hpre (by decide)]
    dsimp only
    rw [if_neg (show ¬ (('[' : Char) = '"') by decide), if_pos rfl]
    have hA' := hA [] [] allWs_nil allWs_nil
    rw [if_neg hp] at hA'
    rw [hA']
    rfl

theorem rt_obj_cons (k : List Char) (v : Json) (kvs : List (List Char × Json)) (f : Nat)
    (pretty : Bool) (lvl : Nat) (pre rest : List Char) (hpre : AllWs pre)
    (hnd : ((((k, v) :: kvs)).map Prod.fst).Nodup)
    (hO : ∀ pre2 wsc2 : List Char, AllWs pre2 → AllWs wsc2 →
      parseObjItems f (pre2 ++ (dumpsPairs pretty (if pretty then lvl + 2 else lvl) k v kvs
        ++ (wsc2 ++ '}' :: rest))) = some ((k, v) :: kvs, rest)) :
    parseVal (f + 1) (pre ++ (dumpsVal pretty lvl (Json.obj ((k, v) :: kvs)) ++ rest)) =
      some (Json.obj ((k, v) :: kvs), rest) := by
  by_cases hp : pretty = true
  · have hd : dumpsVal pretty lvl (Json.obj ((k, v) :: kvs))
        = '{' :: ('\n' :: (spaces (lvl + 2) ++ dumpsPairs pretty (lvl + 2) k v kvs
          ++ '\n' :: (spaces lvl ++ ['}']))) := by simp [dumpsVal, hp]
    rw [hd]
    rw [show pre ++ (('{' :: ('\n' :: (spaces (lvl + 2) ++ dumpsPairs pretty (lvl + 2) k v kvs
          ++ '\n' :: (spaces lvl ++ ['}'])))) ++ rest)
      = pre ++ '{' :: (('\n' :: spaces (lvl + 2)) ++ (dumpsPairs pretty (lvl + 2) k v kvs
          ++ (('\n' :: spaces lvl) ++ '}' :: rest))) by simp]
    rw [parseVal]
    rw [skipWs_append_cons pre '{' _ hpre (by decide)]
    dsimp only
    rw [if_neg (show ¬ (('{' : Char) = '"') by decide),
      if_neg (show ¬ (('{' : Char) = '[') by decide), if_pos rfl]
    have hO' := hO ('\n' :: spaces (lvl + 2)) ('\n' :: spaces lvl)
      (allWs_cons '\n' (by decide) _ (allWs_spaces _))
      (allWs_cons '\n' (by decide) _ (allWs_spaces _))
    rw [if_pos hp] at hO'
    rw [hO']
    rw [Option.map_some']
    rw [buildObj_self _ hnd]
  · have hd : dumpsVal pretty lvl (Json.obj ((k, v) :: kvs))
        = '{' :: (dumpsPairs pretty lvl k v kvs ++ ['}']) := by simp [dumpsVal, hp]
    rw [hd]
    rw [show pre ++ (('{' :: (dumpsPairs pretty lvl k v kvs ++ ['}'])) ++ rest)
      = pre ++ '{' :: ([] ++ (dumpsPairs pretty lvl k v kvs ++ ([] ++ '}' :: rest))) by simp]
    rw [parseVal]
    rw [skipWs_append_cons pre '{' _ hpre (by decide)]
    dsimp only
    rw [if_neg (show ¬ (('{' : Char) = '"') by decide),
      if_neg (show ¬ (('{' : Char) = '[') by decide), if_pos rfl]
    have hO' := hO [] [] allWs_nil allWs_nil
    rw [if_neg hp] at hO'
    rw [hO']
    rw [Option.map_some']
    rw [buildObj_self _ hnd]

end VitAI

namespace VitAI

theorem skipWs_pre_dumps (pretty : Bool) (lvl : Nat) (x : Json) (pre R : List Char)
    (hpre : AllWs pre) :
    ∃ c t, dumpsVal pretty lvl x = c :: t ∧ (c ≠ ']' ∧ c ≠ ',') ∧
      skipWs (pre ++ (dumpsVal pretty lvl x ++ R)) = c :: (t ++ R) := by
  obtain ⟨c, t, hdv, hcws, h1, h2⟩ := dumpsVal_head pretty lvl x
  refine ⟨c, t, hdv, ⟨h1, h2⟩, ?_⟩
  rw [hdv, show pre ++ ((c :: t) ++ R) = pre ++ c :: (t ++ R) by simp]
  exact skipWs_append_cons pre c _ hpre hcws

theorem rta_nil (x : Json) (f : Nat) (pretty : Bool) (lvl : Nat)
    (pre wsc rest : List Char) (hpre : AllWs pre) (hwsc : AllWs wsc)
    (hV : parseVal f (pre ++ (dumpsVal pretty lvl x ++ (wsc ++ ']' :: rest)))
      = some (x, wsc ++ ']' :: rest)) :
    parseArrItems (f + 1) (pre ++ (dumpsItems pretty lvl x [] ++ (wsc ++ ']' :: rest))) =
      some ([x], rest) := by
  have hitems : dumpsItems pretty lvl x [] = dumpsVal pretty lvl x := by simp [dumpsItems]
  rw [hitems]
  rw [parseArrItems]
  obtain ⟨c, t, hdv, ⟨hne1, _⟩, hskip⟩ :=
    skipWs_pre_dumps pretty lvl x pre (wsc ++ ']' :: rest) hpre
  rw [hskip]
  split
  · rename_i rest2 heq
    injection heq with h1 _
    exact absurd h1 hne1
  · rw [hV]
    dsimp only
    rw [skipWs_append_cons wsc ']' rest hwsc (by decide)]
    rfl

theorem rta_cons (x y : Json) (ys : List Json) (f : Nat) (pretty : Bool) (lvl : Nat)
    (pre wsc rest : List Char) (hpre : AllWs pre) (hwsc : AllWs wsc)
    (hV : ∀ rest2 : List Char, NoDigitHead rest2 →
      parseVal f (pre ++ (dumpsVal pretty lvl x ++ rest2)) = some (x, rest2))
    (hA : ∀ pre2 : List Char, AllWs pre2 →
      parseArrItems f (pre2 ++ (dumpsItems pretty lvl y ys ++ (wsc ++ ']' :: rest))) =
        some (y :: ys, rest)) :
    parseArrItems (f + 1) (pre ++ (dumpsItems pretty lvl x (y :: ys) ++ (wsc ++ ']' :: rest))) =
      some (x :: y :: ys, rest) := by
  by_cases hp : pretty = true
  · have hitems : dumpsItems pretty lvl x (y :: ys)
        = dumpsVal pretty lvl x ++ ',' :: '\n' :: (spaces lvl ++ dumpsItems pretty lvl y ys) := by
      simp [dumpsItems, hp]
    rw [hitems]
    rw [show pre ++ ((dumpsVal pretty lvl x
          ++ ',' :: '\n' :: (spaces lvl ++ dumpsItems pretty lvl y ys)) ++ (wsc ++ ']' :: rest))
      = pre ++ (dumpsVal pretty lvl x ++ (',' :: ('\n' :: (spaces lvl
          ++ (dumpsItems pretty lvl y ys ++ (wsc ++ ']' :: rest)))))) by simp]
    rw [parseArrItems]
    obtain ⟨c, t, hdv, ⟨hne1, _⟩, hskip⟩ := skipWs_pre_dumps pretty lvl x pre
      (',' :: ('\n' :: (spaces lvl ++ (dumpsItems pretty lvl y ys ++ (wsc ++ ']' :: rest))))) hpre
    rw [hskip]
    split
    · rename_i rest2 heq
      injection heq with h1 _
      exact absurd h1 hne1
    · rw [hV _ (noDigitHead_of_head ',' (by decide) _)]
      dsimp only
      rw [skipWs_cons ',' _ (by decide)]
      show Option.map (fun p => (x :: p.1, p.2))
        (parseArrItems f (('\n' :: spaces lvl)
          ++ (dumpsItems pretty lvl y ys ++ (wsc ++ ']' :: rest)))) = some (x :: y :: ys, rest)
      rw [hA ('\n' :: spaces lvl) (allWs_cons '\n' (by decide) _ (allWs_spaces _))]
      rfl
  · have hitems : dumpsItems pretty lvl x (y :: ys)
        = dumpsVal pretty lvl x ++ ',' :: ' ' :: dumpsItems pretty lvl y ys := by
      simp [dumpsItems, hp]
    rw [hitems]
    rw [show pre ++ ((dumpsVal pretty lvl x
          ++ ',' :: ' ' :: dumpsItems pretty lvl y ys) ++ (wsc ++ ']' :: rest))
      = pre ++ (dumpsVal pretty lvl x ++ (',' :: (' ' ::
          (dumpsItems pretty lvl y ys ++ (wsc ++ ']' :: rest))))) by simp]
    rw [parseArrItems]
    obtain ⟨c, t, hdv, ⟨hne1, _⟩, hskip⟩ := skipWs_pre_dumps pretty lvl x pre
      (',' :: (' ' :: (dumpsItems pretty lvl y ys ++ (wsc ++ ']' :: rest)))) hpre
    rw [hskip]
    split
    · rename_i rest2 heq
      injection heq with h1 _
      exact absurd h1 hne1
    · rw [hV _ (noDigitHead_of_head ',' (by decide) _)]
      dsimp only
      rw [skipWs_cons ',' _ (by decide)]
      show Option.map (fun p => (x :: p.1, p.2))
        (parseArrItems f ([' ']
          ++ (dumpsItems pretty lvl y ys ++ (wsc ++ ']' :: rest)))) = some (x :: y :: ys, rest)
      rw [hA [' '] (allWs_cons ' ' (by decide) _ allWs_nil)]
      rfl

end VitAI

namespace VitAI

theorem rto_nil (k : List Char) (v : Json) (f : Nat) (pretty : Bool) (lvl : Nat)
    (pre wsc rest : List Char) (hpre : AllWs pre) (hwsc : AllWs wsc)
    (hV : ∀ pre2 rest2 : List Char, AllWs pre2 → NoDigitHead rest2 →
      parseVal f (pre2 ++ (dumpsVal pretty lvl v ++ rest2)) = some (v, rest2)) :
    parseObjItems (f + 1) (pre ++ (dumpsPairs pretty lvl k v [] ++ (wsc ++ '}' :: rest))) =
      some ([(k, v)], rest) := by
  have hd : dumpsPairs pretty lvl k v []
      = '"' :: (escape k ++ '"' :: ':' :: ' ' :: dumpsVal pretty lvl v) := by
    simp [dumpsPairs]
  rw [hd]
  rw [show pre ++ (('"' :: (escape k ++ '"' :: ':' :: ' ' :: dumpsVal pretty lvl v))
        ++ (wsc ++ '}' :: rest))
    = pre ++ '"' :: (escape k ++ '"' :: (':' :: (' ' :: (dumpsVal pretty lvl v
        ++ (wsc ++ '}' :: rest))))) by simp]
  rw [parseObjItems]
  rw [skipWs_append_cons pre '"' _ hpre (by decide)]
  split
  · rename_i r heq
    injection heq with h1 _
    exact absurd h1 (by decide)
  · rename_i cs2 heq
    injection heq with _ h2
    subst h2
    rw [parseStrBody_escape k (':' :: (' ' :: (dumpsVal pretty lvl v ++ (wsc ++ '}' :: rest))))]
    dsimp only
    rw [skipWs_cons ':' _ (by decide)]
    split
    · rename_i r2 heq2
      injection heq2 with _ h3
      subst h3
      rw [show ' ' :: (dumpsVal pretty lvl v ++ (wsc ++ '}' :: rest))
        = [' '] ++ (dumpsVal pretty lvl v ++ (wsc ++ '}' :: rest)) from rfl]
      rw [hV [' '] _ (allWs_cons ' ' (by decide) _ allWs_nil)
        (noDigitHead_ws_append wsc hwsc '}' (by decide) rest)]
      dsimp only
      rw [skipWs_append_cons wsc '}' rest hwsc (by decide)]
      rfl
    · rename_i hno
      exact absurd rfl (hno (' ' :: (dumpsVal pretty lvl v ++ (wsc ++ '}' :: rest))))
  · rename_i hno1 hno2
    exact absurd rfl (hno2 (escape k ++ '"' :: (':' :: (' ' :: (dumpsVal pretty lvl v
      ++ (wsc ++ '}' :: rest))))))

end VitAI

namespace VitAI

theorem rto_cons (k : List Char) (v : Json) (k2 : List Char) (v2 : Json)
    (kvs2 : List (List Char × Json)) (f : Nat) (pretty : Bool) (lvl : Nat)
    (pre wsc rest : List Char) (hpre : AllWs pre) (hwsc : AllWs wsc)
    (hV : ∀ pre2 rest2 : List Char, AllWs pre2 → NoDigitHead rest2 →
      parseVal f (pre2 ++ (dumpsVal pretty lvl v ++ rest2)) = some (v, rest2))
    (hO : ∀ pre2 wsc2 : List Char, AllWs pre2 → AllWs wsc2 →
      parseObjItems f (pre2 ++ (dumpsPairs pretty lvl k2 v2 kvs2 ++ (wsc2 ++ '}' :: rest))) =
        some ((k2, v2) :: kvs2, rest)) :
    parseObjItems (f + 1)
        (pre ++ (dumpsPairs pretty lvl k v ((k2, v2) :: kvs2) ++ (wsc ++ '}' :: rest))) =
      some ((k, v) :: (k2, v2) :: kvs2, rest) := by
  by_cases hp : pretty = true
  · subst hp
    have hd : dumpsPairs true lvl k v ((k2, v2) :: kvs2)
        = '"' :: ((escape k ++ '"' :: ':' :: ' ' :: dumpsVal true lvl v)
            ++ ',' :: '\n' :: (spaces lvl ++ dumpsPairs true lvl k2 v2 kvs2)) := by
      simp [dumpsPairs]
    rw [hd]
    rw [show pre ++ (('"' :: ((escape k ++ '"' :: ':' :: ' ' :: dumpsVal true lvl v)
          ++ ',' :: '\n' :: (spaces lvl ++ dumpsPairs true lvl k2 v2 kvs2)))
          ++ (wsc ++ '}' :: rest))
      = pre ++ '"' :: (escape k ++ '"' :: (':' :: (' ' :: (dumpsVal true lvl v
          ++ (',' :: ('\n' :: (spaces lvl ++ (dumpsPairs true lvl k2 v2 kvs2
          ++ (wsc ++ '}' :: rest)))))))))
      by simp]
    rw [parseObjItems]
    rw [skipWs_append_cons pre '"' _ hpre (by decide)]
    split
    · rename_i r heq
      injection heq with h1 _
      exact absurd h1 (by decide)
    · rename_i cs2 heq
      injection heq with _ h2
      subst h2
      rw [parseStrBody_escape k (':' :: (' ' :: (dumpsVal true lvl v
        ++ (',' :: ('\n' :: (spaces lvl ++ (dumpsPairs true lvl k2 v2 kvs2
        ++ (wsc ++ '}' :: rest))))))))]
      dsimp only
      rw [skipWs_cons ':' _ (by decide)]
      split
      · rename_i r2 heq2
        injection heq2 with _ h3
        subst h3
        rw [show ' ' :: (dumpsVal true lvl v ++ (',' :: ('\n' :: (spaces lvl
            ++ (dumpsPairs true lvl k2 v2 kvs2 ++ (wsc ++ '}' :: rest))))))
          = [' '] ++ (dumpsVal true lvl v ++ (',' :: ('\n' :: (spaces lvl
            ++ (dumpsPairs true lvl k2 v2 kvs2 ++ (wsc ++ '}' :: rest)))))) from rfl]
        rw [hV [' '] _ (allWs_cons ' ' (by decide) _ allWs_nil)
          (noDigitHead_of_head ',' (by decide) _)]
        dsimp only
        rw [skipWs_cons ',' _ (by decide)]
        show Option.map (fun p => ((k, v) :: p.1, p.2))
            (parseObjItems f (('\n' :: spaces lvl)
              ++ (dumpsPairs true lvl k2 v2 kvs2 ++ (wsc ++ '}' :: rest)))) =
          some ((k, v) :: (k2, v2) :: kvs2, rest)
        rw [hO ('\n' :: spaces lvl) wsc
          (allWs_cons '\n' (by decide) _ (allWs_spaces lvl)) hwsc]
        rfl
      · rename_i hno
        exact absurd rfl (hno (' ' :: (dumpsVal true lvl v ++ (',' :: ('\n' :: (spaces lvl
          ++ (dumpsPairs true lvl k2 v2 kvs2 ++ (wsc ++ '}' :: rest))))))))
    · rename_i hno1 hno2
      exact absurd rfl (hno2 (escape k ++ '"' :: (':' :: (' ' :: (dumpsVal true lvl v
        ++ (',' :: ('\n' :: (spaces lvl ++ (dumpsPairs true lvl k2 v2 kvs2
        ++ (wsc ++ '}' :: rest))))))))))
  · have hp' : pretty = false := by
      cases pretty
      · rfl
      · exact absurd rfl hp
    subst hp'
    have hd : dumpsPairs false lvl k v ((k2, v2) :: kvs2)
        = '"' :: ((escape k ++ '"' :: ':' :: ' ' :: dumpsVal false lvl v)
            ++ ',' :: ' ' :: dumpsPairs false lvl k2 v2 kvs2) := by
      simp [dumpsPairs]
    rw [hd]
    rw [show pre ++ (('"' :: ((escape k ++ '"' :: ':' :: ' ' :: dumpsVal false lvl v)
          ++ ',' :: ' ' :: dumpsPairs false lvl k2 v2 kvs2))
          ++ (wsc ++ '}' :: rest))
      = pre ++ '"' :: (escape k ++ '"' :: (':' :: (' ' :: (dumpsVal false lvl v
          ++ (',' :: (' ' :: (dumpsPairs false lvl k2 v2 kvs2
          ++ (wsc ++ '}' :: rest))))))))
      by simp]
    rw [parseObjItems]
    rw [skipWs_append_cons pre '"' _ hpre (by decide)]
    split
    · rename_i r heq
      injection heq with h1 _
      exact absurd h1 (by decide)
    · rename_i cs2 heq
      injection heq with _ h2
      subst h2
      rw [parseStrBody_escape k (':' :: (' ' :: (dumpsVal false lvl v
        ++ (',' :: (' ' :: (dumpsPairs false lvl k2 v2 kvs2
        ++ (wsc ++ '}' :: rest)))))))]
      dsimp only
      rw [skipWs_cons ':' _ (by decide)]
      split
      · rename_i r2 heq2
        injection heq2 with _ h3
        subst h3
        rw [show ' ' :: (dumpsVal false lvl v ++ (',' :: (' ' :: (dumpsPairs false lvl k2 v2 kvs2
            ++ (wsc ++ '}' :: rest)))))
          = [' '] ++ (dumpsVal false lvl v ++ (',' :: (' ' :: (dumpsPairs false lvl k2 v2 kvs2
            ++ (wsc ++ '}' :: rest))))) from rfl]
        rw [hV [' '] _ (allWs_cons ' ' (by decide) _ allWs_nil)
          (noDigitHead_of_head ',' (by decide) _)]
        dsimp only
        rw [skipWs_cons ',' _ (by decide)]
        show Option.map (fun p => ((k, v) :: p.1, p.2))
            (parseObjItems f ([' ']
              ++ (dumpsPairs false lvl k2 v2 kvs2 ++ (wsc ++ '}' :: rest)))) =
          some ((k, v) :: (k2, v2) :: kvs2, rest)
        rw [hO [' '] wsc (allWs_cons ' ' (by decide) _ allWs_nil) hwsc]
        rfl
      · rename_i hno
        exact absurd rfl (hno (' ' :: (dumpsVal false lvl v ++ (',' :: (' '
          :: (dumpsPairs false lvl k2 v2 kvs2 ++ (wsc ++ '}' :: rest)))))))
    · rename_i hno1 hno2
      exact absurd rfl (hno2 (escape k ++ '"' :: (':' :: (' ' :: (dumpsVal false lvl v
        ++ (',' :: (' ' :: (dumpsPairs false lvl k2 v2 kvs2
        ++ (wsc ++ '}' :: rest)))))))))

end VitAI

namespace VitAI

mutual

/-- Fuel needed by `parseVal` to parse the serialization of a value. -/
def needV : Json → Nat
  | .arr xs => 1 + needA xs
  | .obj kvs => 1 + needO kvs
  | _ => 1
termination_by v => sizeOf v
decreasing_by all_goals (simp_wf <;> omega)

def needA : List Json → Nat
  | [] => 1
  | x :: xs => 1 + max (needV x) (needA xs)
termination_by xs => sizeOf xs
decreasing_by all_goals (simp_wf <;> omega)

def needO : List (List Char × Json) → Nat
  | [] => 1
  | (_, v) :: kvs => 1 + max (needV v) (needO kvs)
termination_by kvs => sizeOf kvs
decreasing_by all_goals (simp_wf <;> omega)

end

theorem needV_null : needV Json.null = 1 := by rw [needV] <;> simp

theorem needV_bool (b : Bool) : needV (Json.bool b) = 1 := by rw [needV] <;> simp

theorem needV_num (n : Int) : needV (Json.num n) = 1 := by rw [needV] <;> simp

theorem needV_str (s : List Char) : needV (Json.str s) = 1 := by rw [needV] <;> simp

theorem needV_arr (xs : List Json) : needV (Json.arr xs) = 1 + needA xs := by rw [needV]

theorem needV_obj (kvs : List (List Char × Json)) :
    needV (Json.obj kvs) = 1 + needO kvs := by rw [needV]

theorem needA_nil : needA [] = 1 := by rw [needA]

theorem needA_cons (x : Json) (xs : List Json) :
    needA (x :: xs) = 1 + max (needV x) (needA xs) := by rw [needA]

theorem needO_nil : needO [] = 1 := by rw [needO]

theorem needO_cons (k : List Char) (v : Json) (kvs : List (List Char × Json)) :
    needO ((k, v) :: kvs) = 1 + max (needV v) (needO kvs) := by rw [needO]

theorem noDigitHead_nil : NoDigitHead [] := by
  intro c t h
  exact absurd h (by simp)

theorem dumpsVal_len_pos (pretty : Bool) (lvl : Nat) (v : Json) :
    1 ≤ (dumpsVal pretty lvl v).length := by
  obtain ⟨c, t, hdv, _⟩ := dumpsVal_head pretty lvl v
  rw [hdv]
  simp

end VitAI

namespace VitAI

/-- Master round-trip induction: serializing then parsing recovers the value,
simultaneously for values, array item lists and object pair lists. -/
theorem roundTrip_all : ∀ N : Nat,
    (∀ v : Json, sizeOf v ≤ N → jwfV v →
      ∀ (f : Nat) (pretty : Bool) (lvl : Nat) (pre rest : List Char),
        needV v ≤ f → AllWs pre → NoDigitHead rest →
        parseVal f (pre ++ (dumpsVal pretty lvl v ++ rest)) = some (v, rest)) ∧
    (∀ (x : Json) (xs : List Json), sizeOf x + sizeOf xs ≤ N → jwfV x → jwfL xs →
      ∀ (f : Nat) (pretty : Bool) (lvl : Nat) (pre wsc rest : List Char),
        needA (x :: xs) ≤ f → AllWs pre → AllWs wsc →
        parseArrItems f (pre ++ (dumpsItems pretty lvl x xs ++ (wsc ++ ']' :: rest))) =
          some (x :: xs, rest)) ∧
    (∀ (k : List Char) (v : Json) (kvs : List (List Char × Json)),
      sizeOf v + sizeOf kvs ≤ N → jwfV v → jwfO kvs →
      ∀ (f : Nat) (pretty : Bool) (lvl : Nat) (pre wsc rest : List Char),
        needO ((k, v) :: kvs) ≤ f → AllWs pre → AllWs wsc →
        parseObjItems f (pre ++ (dumpsPairs pretty lvl k v kvs ++ (wsc ++ '}' :: rest))) =
          some ((k, v) :: kvs, rest)) := by
  intro N
  induction N with
  | zero =>
    refine ⟨?_, ?_, ?_⟩
    · intro v hsz _ f pretty lvl pre rest _ _ _
      have := json_sizeOf_pos v
      omega
    · intro x xs hsz _ _ f pretty lvl pre wsc rest _ _ _
      have := json_sizeOf_pos x
      have := jsonList_sizeOf_pos xs
      omega
    · intro k v kvs hsz _ _ f pretty lvl pre wsc rest _ _ _
      have := json_sizeOf_pos v
      have := jsonObj_sizeOf_pos kvs
      omega
  | succ M ih =>
    obtain ⟨ihV, ihA, ihO⟩ := ih
    refine ⟨?_, ?_, ?_⟩
    · intro v hsz hwf f pretty lvl pre rest hf hpre hrest
      cases v with
      | null => exact rt_null f (by rw [needV_null] at hf; omega) pretty lvl pre rest hpre
      | bool b => exact rt_bool b f (by rw [needV_bool] at hf; omega) pretty lvl pre rest hpre
      | num m => exact rt_num m f (by rw [needV_num] at hf; omega) pretty lvl pre rest hpre hrest
      | str s => exact rt_str s f (by rw [needV_str] at hf; omega) pretty lvl pre rest hpre
      | arr xs =>
        cases xs with
        | nil =>
          refine rt_arr_nil f ?_ pretty lvl pre rest hpre
          rw [needV_arr, needA_nil] at hf
          omega
        | cons x xs2 =>
          have hsz' : sizeOf x + sizeOf xs2 + 2 ≤ sizeOf (Json.arr (x :: xs2)) := by
            simp
            omega
          rw [needV_arr] at hf
          have hna : 1 ≤ needA (x :: xs2) := by rw [needA_cons]; omega
          obtain ⟨f2, rfl⟩ : ∃ f2, f = f2 + 1 := ⟨f - 1, by omega⟩
          rw [jwfV] at hwf
          rw [jwfL] at hwf
          refine rt_arr_cons x xs2 f2 pretty lvl pre rest hpre ?_
          intro pre2 wsc2 hpre2 hwsc2
          exact ihA x xs2 (by omega) hwf.1 hwf.2 f2 pretty _ pre2 wsc2 rest (by omega) hpre2 hwsc2
      | obj kvs =>
        cases kvs with
        | nil =>
          refine rt_obj_nil f ?_ pretty lvl pre rest hpre
          rw [needV_obj, needO_nil] at hf
          omega
        | cons kv kvs2 =>
          obtain ⟨k, v⟩ := kv
          have hsz' : sizeOf v + sizeOf kvs2 + 3 ≤ sizeOf (Json.obj ((k, v) :: kvs2)) := by
            simp
            omega
          rw [needV_obj] at hf
          have hno : 1 ≤ needO ((k, v) :: kvs2) := by rw [needO_cons]; omega
          obtain ⟨f2, rfl⟩ : ∃ f2, f = f2 + 1 := ⟨f - 1, by omega⟩
          rw [jwfV] at hwf
          rw [jwfO] at hwf
          refine rt_obj_cons k v kvs2 f2 pretty lvl pre rest hpre hwf.1 ?_
          intro pre2 wsc2 hpre2 hwsc2
          exact ihO k v kvs2 (by omega) hwf.2.1 hwf.2.2 f2 pretty _ pre2 wsc2 rest
            (by omega) hpre2 hwsc2
    · intro x xs hsz hwfx hwfxs f pretty lvl pre wsc rest hf hpre hwsc
      cases xs with
      | nil =>
        have h0 : sizeOf ([] : List Json) = 1 := by simp
        rw [needA_cons, needA_nil] at hf
        obtain ⟨f2, rfl⟩ : ∃ f2, f = f2 + 1 := ⟨f - 1, by omega⟩
        refine rta_nil x f2 pretty lvl pre wsc rest hpre hwsc ?_
        exact ihV x (by omega) hwfx f2 pretty lvl pre (wsc ++ ']' :: rest) (by omega) hpre
          (noDigitHead_ws_append wsc hwsc ']' (by decide) rest)
      | cons y ys =>
        have hc : sizeOf (y :: ys : List Json) = 1 + sizeOf y + sizeOf ys := by
          simp
        have hx1 := json_sizeOf_pos x
        have hy1 := json_sizeOf_pos y
        have hys1 := jsonList_sizeOf_pos ys
        rw [needA_cons] at hf
        obtain ⟨f2, rfl⟩ : ∃ f2, f = f2 + 1 := ⟨f - 1, by omega⟩
        rw [jwfL] at hwfxs
        refine rta_cons x y ys f2 pretty lvl pre wsc rest hpre hwsc ?_ ?_
        · intro rest2 hrest2
          exact ihV x (by omega) hwfx f2 pretty lvl pre rest2 (by omega) hpre hrest2
        · intro pre2 hpre2
          exact ihA y ys (by omega) hwfxs.1 hwfxs.2 f2 pretty lvl pre2 wsc rest
            (by omega) hpre2 hwsc
    · intro k v kvs hsz hwfv hwfkvs f pretty lvl pre wsc rest hf hpre hwsc
      cases kvs with
      | nil =>
        have h0 : sizeOf ([] : List (List Char × Json)) = 1 := by simp
        rw [needO_cons, needO_nil] at hf
        obtain ⟨f2, rfl⟩ : ∃ f2, f = f2 + 1 := ⟨f - 1, by omega⟩
        refine rto_nil k v f2 pretty lvl pre wsc rest hpre hwsc ?_
        intro pre2 rest2 hpre2 hrest2
        exact ihV v (by omega) hwfv f2 pretty lvl pre2 rest2 (by omega) hpre2 hrest2
      | cons kv2 kvs2 =>
        obtain ⟨k2, v2⟩ := kv2
        have hc : sizeOf v2 + sizeOf kvs2 + 2 ≤ sizeOf ((k2, v2) :: kvs2 :
            List (List Char × Json)) := by
          simp
          omega
        have hv1 := json_sizeOf_pos v
        rw [needO_cons] at hf
        obtain ⟨f2, rfl⟩ : ∃ f2, f = f2 + 1 := ⟨f - 1, by omega⟩
        rw [jwfO] at hwfkvs
        refine rto_cons k v k2 v2 kvs2 f2 pretty lvl pre wsc rest hpre hwsc ?_ ?_
        · intro pre2 rest2 hpre2 hrest2
          exact ihV v (by omega) hwfv f2 pretty lvl pre2 rest2 (by omega) hpre2 hrest2
        · intro pre2 wsc2 hpre2 hwsc2
          exact ihO k2 v2 kvs2 (by omega) hwfkvs.1 hwfkvs.2 f2 pretty lvl pre2 wsc2 rest
            (by omega) hpre2 hwsc2

end VitAI


namespace VitAI

/-- The fuel measure is bounded by the serialized length, so `loads`'s
fuel `length + 1` always suffices. -/
theorem needLen_all : ∀ N : Nat,
    (∀ v : Json, sizeOf v ≤ N → ∀ (pretty : Bool) (lvl : Nat),
      needV v ≤ (dumpsVal pretty lvl v).length) ∧
    (∀ (x : Json) (xs : List Json), sizeOf x + sizeOf xs ≤ N → ∀ (pretty : Bool) (lvl : Nat),
      needA (x :: xs) ≤ (dumpsItems pretty lvl x xs).length + 1) ∧
    (∀ (k : List Char) (v : Json) (kvs : List (List Char × Json)),
      sizeOf v + sizeOf kvs ≤ N → ∀ (pretty : Bool) (lvl : Nat),
      needO ((k, v) :: kvs) ≤ (dumpsPairs pretty lvl k v kvs).length + 1) := by
  intro N
  induction N with
  | zero =>
    refine ⟨?_, ?_, ?_⟩
    · intro v hsz _ _
      have := json_sizeOf_pos v
      omega
    · intro x xs hsz _ _
      have := json_sizeOf_pos x
      have := jsonList_sizeOf_pos xs
      omega
    · intro k v kvs hsz _ _
      have := json_sizeOf_pos v
      have := jsonObj_sizeOf_pos kvs
      omega
  | succ M ih =>
    obtain ⟨ihV, ihA, ihO⟩ := ih
    refine ⟨?_, ?_, ?_⟩
    · intro v hsz pretty lvl
      cases v with
      | null =>
        rw [needV_null]
        exact dumpsVal_len_pos pretty lvl Json.null
      | bool b =>
        rw [needV_bool]
        exact dumpsVal_len_pos pretty lvl (Json.bool b)
      | num m =>
        rw [needV_num]
        exact dumpsVal_len_pos pretty lvl (Json.num m)
      | str s =>
        rw [needV_str]
        exact dumpsVal_len_pos pretty lvl (Json.str s)
      | arr xs =>
        cases xs with
        | nil =>
          have hd : dumpsVal pretty lvl (Json.arr []) = '[' :: [']'] := by simp [dumpsVal]
          rw [needV_arr, needA_nil, hd]
          simp
        | cons x xs2 =>
          have hsz' : sizeOf x + sizeOf xs2 + 2 ≤ sizeOf (Json.arr (x :: xs2)) := by
            simp
            omega
          have hia := ihA x xs2 (by omega)
          rw [needV_arr]
          by_cases hp : pretty = true
          · have hd : dumpsVal pretty lvl (Json.arr (x :: xs2))
                = '[' :: ('\n' :: (spaces (lvl + 2) ++ dumpsItems pretty (lvl + 2) x xs2
                  ++ '\n' :: (spaces lvl ++ [']']))) := by simp [dumpsVal, hp]
            have h2 := hia pretty (lvl + 2)
            rw [hd]
            simp only [List.length_cons, List.length_append]
            omega
          · have hd : dumpsVal pretty lvl (Json.arr (x :: xs2))
                = '[' :: (dumpsItems pretty lvl x xs2 ++ [']']) := by simp [dumpsVal, hp]
            have h2 := hia pretty lvl
            rw [hd]
            simp only [List.length_cons, List.length_append]
            omega
      | obj kvs =>
        cases kvs with
        | nil =>
          have hd : dumpsVal pretty lvl (Json.obj []) = '{' :: ['}'] := by simp [dumpsVal]
          rw [needV_obj, needO_nil, hd]
          simp
        | cons kv kvs2 =>
          obtain ⟨k, v⟩ := kv
          have hsz' : sizeOf v + sizeOf kvs2 + 3 ≤ sizeOf (Json.obj ((k, v) :: kvs2)) := by
            simp
            omega
          have hio := ihO k v kvs2 (by omega)
          rw [needV_obj]
          by_cases hp : pretty = true
          · have hd : dumpsVal pretty lvl (Json.obj ((k, v) :: kvs2))
                = '{' :: ('\n' :: (spaces (lvl + 2) ++ dumpsPairs pretty (lvl + 2) k v kvs2
                  ++ '\n' :: (spaces lvl ++ ['}']))) := by simp [dumpsVal, hp]
            have h2 := hio pretty (lvl + 2)
            rw [hd]
            simp only [List.length_cons, List.length_append]
            omega
          · have hd : dumpsVal pretty lvl (Json.obj ((k, v) :: kvs2))
                = '{' :: (dumpsPairs pretty lvl k v kvs2 ++ ['}']) := by simp [dumpsVal, hp]
            have h2 := hio pretty lvl
            rw [hd]
            simp only [List.length_cons, List.length_append]
            omega
    · intro x xs hsz pretty lvl
      cases xs with
      | nil =>
        have h0 : sizeOf ([] : List Json) = 1 := by simp
        have hitems : dumpsItems pretty lvl x [] = dumpsVal pretty lvl x := by
          simp [dumpsItems]
        have h1 := ihV x (by omega) pretty lvl
        have h2 := dumpsVal_len_pos pretty lvl x
        rw [needA_cons, needA_nil, hitems]
        omega
      | cons y ys =>
        have hc : sizeOf (y :: ys : List Json) = 1 + sizeOf y + sizeOf ys := by
          simp
        have hx1 := json_sizeOf_pos x
        have hy1 := json_sizeOf_pos y
        have hys1 := jsonList_sizeOf_pos ys
        have h1 := ihV x (by omega) pretty lvl
        have h2 := ihA y ys (by omega) pretty lvl
        rw [needA_cons]
        by_cases hp : pretty = true
        · have hitems : dumpsItems pretty lvl x (y :: ys)
              = dumpsVal pretty lvl x
                ++ ',' :: '\n' :: (spaces lvl ++ dumpsItems pretty lvl y ys) := by
            simp [dumpsItems, hp]
          rw [hitems]
          simp only [List.length_cons, List.length_append]
          omega
        · have hitems : dumpsItems pretty lvl x (y :: ys)
              = dumpsVal pretty lvl x ++ ',' :: ' ' :: dumpsItems pretty lvl y ys := by
            simp [dumpsItems, hp]
          rw [hitems]
          simp only [List.length_cons, List.length_append]
          omega
    · intro k v kvs hsz pretty lvl
      cases kvs with
      | nil =>
        have h0 : sizeOf ([] : List (List Char × Json)) = 1 := by simp
        have hd : dumpsPairs pretty lvl k v []
            = '"' :: (escape k ++ '"' :: ':' :: ' ' :: dumpsVal pretty lvl v) := by
          simp [dumpsPairs]
        have h1 := ihV v (by omega) pretty lvl
        rw [needO_cons, needO_nil, hd]
        simp only [List.length_cons, List.length_append]
        omega
      | cons kv2 kvs2 =>
        obtain ⟨k2, v2⟩ := kv2
        have hc : sizeOf v2 + sizeOf kvs2 + 2 ≤ sizeOf ((k2, v2) :: kvs2 :
            List (List Char × Json)) := by
          simp
          omega
        have hv1 := json_sizeOf_pos v
        have h1 := ihV v (by omega) pretty lvl
        have h2 := ihO k2 v2 kvs2 (by omega) pretty lvl
        rw [needO_cons]
        by_cases hp : pretty = true
        · have hd : dumpsPairs pretty lvl k v ((k2, v2) :: kvs2)
              = '"' :: ((escape k ++ '"' :: ':' :: ' ' :: dumpsVal pretty lvl v)
                  ++ ',' :: '\n' :: (spaces lvl ++ dumpsPairs pretty lvl k2 v2 kvs2)) := by
            simp [dumpsPairs, hp]
          rw [hd]
          simp only [List.length_cons, List.length_append]
          omega
        · have hd : dumpsPairs pretty lvl k v ((k2, v2) :: kvs2)
              = '"' :: ((escape k ++ '"' :: ':' :: ' ' :: dumpsVal pretty lvl v)
                  ++ ',' :: ' ' :: dumpsPairs pretty lvl k2 v2 kvs2) := by
            simp [dumpsPairs, hp]
          rw [hd]
          simp only [List.length_cons, List.length_append]
          omega

end VitAI

namespace VitAI

/-- Serialize/parse round trip: `json.loads(json.dumps(v))` recovers `v`
exactly, for any value whose dicts have pairwise distinct keys (every Python
dict satisfies this). -/
theorem loads_dumpsVal (v : Json) (h : jwfV v) (pretty : Bool) (lvl : Nat) :
    loads (dumpsVal pretty lvl v) = some v := by
  have hlen := (needLen_all (sizeOf v)).1 v le_rfl pretty lvl
  have hrt := (roundTrip_all (sizeOf v)).1 v le_rfl h
    ((dumpsVal pretty lvl v).length + 1) pretty lvl [] [] (by omega) allWs_nil noDigitHead_nil
  rw [List.nil_append, List.append_nil] at hrt
  rw [loads, hrt]
  rfl

theorem loads_dumps2 (v : Json) (h : jwfV v) : loads (dumps2 v) = some v :=
  loads_dumpsVal v h true 0

end VitAI

namespace VitAI

theorem jwfV_nullI : jwfV Json.null := by rw [jwfV] <;> simp

theorem jwfV_boolI (b : Bool) : jwfV (Json.bool b) := by rw [jwfV] <;> simp

theorem jwfV_numI (n : Int) : jwfV (Json.num n) := by rw [jwfV] <;> simp

theorem jwfV_strI (s : List Char) : jwfV (Json.str s) := by rw [jwfV] <;> simp

theorem jwfV_arr_eq (xs : List Json) : jwfV (Json.arr xs) = jwfL xs := by rw [jwfV]

theorem jwfV_obj_eq (kvs : List (List Char × Json)) :
    jwfV (Json.obj kvs) = ((kvs.map Prod.fst).Nodup ∧ jwfO kvs) := by rw [jwfV]

theorem jwfL_nil : jwfL [] := by rw [jwfL]; trivial

theorem jwfL_cons_eq (x : Json) (xs : List Json) :
    jwfL (x :: xs) = (jwfV x ∧ jwfL xs) := by rw [jwfL]

theorem jwfO_nil : jwfO [] := by rw [jwfO]; trivial

theorem jwfO_cons_eq (k : List Char) (v : Json) (kvs : List (List Char × Json)) :
    jwfO ((k, v) :: kvs) = (jwfV v ∧ jwfO kvs) := by rw [jwfO]

theorem buildObj_wf_go (l : List (List Char × Json)) (hl : jwfO l) :
    ∀ d : List (List Char × Json), (d.map Prod.fst).Nodup → jwfO d →
      (((l.foldl (fun d kv => objInsert d kv.1 kv.2) d).map Prod.fst).Nodup ∧
        jwfO (l.foldl (fun d kv => objInsert d kv.1 kv.2) d)) := by
  induction l with
  | nil =>
    intro d hnd hd
    exact ⟨hnd, hd⟩
  | cons kv tl ih =>
    intro d hnd hd
    obtain ⟨k, v⟩ := kv
    rw [jwfO_cons_eq] at hl
    rw [List.foldl_cons]
    exact ih hl.2 (objInsert d k v) (nodupKeys_objInsert d k v hnd)
      (jwfO_objInsert d k v hd hl.1)

/-- The dict built by the parser from a pair list has distinct keys and
well-formed values. -/
theorem buildObj_wf (l : List (List Char × Json)) (hl : jwfO l) :
    (((l.foldl (fun d kv => objInsert d kv.1 kv.2) []).map Prod.fst).Nodup ∧
      jwfO (l.foldl (fun d kv => objInsert d kv.1 kv.2) [])) :=
  buildObj_wf_go l hl [] (by simp) jwfO_nil

/-- Everything the parser produces is well-formed: dicts have pairwise
distinct keys at every level. -/
theorem parse_wf : ∀ fuel : Nat,
    (∀ s v r, parseVal fuel s = some (v, r) → jwfV v) ∧
    (∀ s l r, parseArrItems fuel s = some (l, r) → jwfL l) ∧
    (∀ s l r, parseObjItems fuel s = some (l, r) → jwfO l) := by
  intro fuel
  induction fuel with
  | zero =>
    refine ⟨?_, ?_, ?_⟩
    · intro s v r h
      exact Option.noConfusion h
    · intro s l r h
      exact Option.noConfusion h
    · intro s l r h
      exact Option.noConfusion h
  | succ f ih =>
    obtain ⟨ihV, ihA, ihO⟩ := ih
    refine ⟨?_, ?_, ?_⟩
    · intro s v r h
      rw [parseVal] at h
      split at h
      · exact Option.noConfusion h
      · rename_i c cs _
        split_ifs at h with h1 h2 h3 h4 h5 h6
        · cases hp : parseStrBody cs with
          | none => rw [hp] at h; exact Option.noConfusion h
          | some p =>
            rw [hp] at h
            injection h with h'
            injection h' with hv _
            rw [← hv]
            exact jwfV_strI p.1
        · cases hp : parseArrItems f cs with
          | none => rw [hp] at h; exact Option.noConfusion h
          | some p =>
            rw [hp] at h
            injection h with h'
            injection h' with hv _
            rw [← hv, jwfV_arr_eq]
            exact ihA cs p.1 p.2 (by rw [hp])
        · cases hp : parseObjItems f cs with
          | none => rw [hp] at h; exact Option.noConfusion h
          | some p =>
            rw [hp] at h
            injection h with h'
            injection h' with hv _
            rw [← hv, jwfV_obj_eq]
            exact buildObj_wf p.1 (ihO cs p.1 p.2 (by rw [hp]))
        · injection h with h'
          injection h' with hv _
          rw [← hv]
          exact jwfV_boolI true
        · injection h with h'
          injection h' with hv _
          rw [← hv]
          exact jwfV_boolI false
        · injection h with h'
          injection h' with hv _
          rw [← hv]
          exact jwfV_nullI
        · cases hp : parseNumTok (c :: cs) with
          | none => rw [hp] at h; exact Option.noConfusion h
          | some p =>
            rw [hp] at h
            injection h with h'
            injection h' with hv _
            rw [← hv]
            exact jwfV_numI p.1
    · intro s l r h
      rw [parseArrItems] at h
      split at h
      · injection h with h'
        injection h' with hl _
        rw [← hl]
        exact jwfL_nil
      · cases hv : parseVal f s with
        | none => rw [hv] at h; exact Option.noConfusion h
        | some q =>
          obtain ⟨v0, r0⟩ := q
          rw [hv] at h
          dsimp only at h
          split at h
          · cases ha : parseArrItems f _ with
            | none => rw [ha] at h; exact Option.noConfusion h
            | some q2 =>
              rw [ha] at h
              injection h with h'
              injection h' with hl _
              rw [← hl, jwfL_cons_eq]
              exact ⟨ihV _ _ _ hv, ihA _ _ _ (by rw [ha])⟩
          · injection h with h'
            injection h' with hl _
            rw [← hl, jwfL_cons_eq]
            exact ⟨ihV _ _ _ hv, jwfL_nil⟩
          · exact Option.noConfusion h
    · intro s l r h
      rw [parseObjItems] at h
      split at h
      · injection h with h'
        injection h' with hl _
        rw [← hl]
        exact jwfO_nil
      · rename_i cs _
        cases hk : parseStrBody cs with
        | none => rw [hk] at h; exact Option.noConfusion h
        | some pk =>
          obtain ⟨k0, r0⟩ := pk
          rw [hk] at h
          dsimp only at h
          split at h
          · rename_i r2 _
            cases hv : parseVal f r2 with
            | none => rw [hv] at h; exact Option.noConfusion h
            | some q =>
              obtain ⟨v0, r3⟩ := q
              rw [hv] at h
              dsimp only at h
              split at h
              · cases ho : parseObjItems f _ with
                | none => rw [ho] at h; exact Option.noConfusion h
                | some q2 =>
                  rw [ho] at h
                  injection h with h'
                  injection h' with hl _
                  rw [← hl, jwfO_cons_eq]
                  exact ⟨ihV _ _ _ hv, ihO _ _ _ (by rw [ho])⟩
              · injection h with h'
                injection h' with hl _
                rw [← hl, jwfO_cons_eq]
                exact ⟨ihV _ _ _ hv, jwfO_nil⟩
              · exact Option.noConfusion h
          · exact Option.noConfusion h
      · exact Option.noConfusion h

/-- `json.loads` only produces dicts with pairwise distinct keys. -/
theorem loads_wf (s : List Char) (v : Json) (h : loads s = some v) : jwfV v := by
  rw [loads] at h
  cases hp : parseVal (s.length + 1) s with
  | none => rw [hp] at h; exact Option.noConfusion h
  | some q =>
    obtain ⟨v0, r0⟩ := q
    rw [hp] at h
    dsimp only at h
    split_ifs at h
    injection h with hv
    rw [← hv]
    exact (parse_wf (s.length + 1)).1 s v0 r0 hp

end VitAI

namespace VitAI

theorem jlookup_wf (d : List (List Char × Json)) (k : List Char) (v : Json)
    (hd : jwfO d) (h : jlookup d k = some v) : jwfV v := by
  induction d with
  | nil => exact Option.noConfusion h
  | cons kv rest ih =>
    obtain ⟨k0, v0⟩ := kv
    rw [jwfO_cons_eq] at hd
    rw [jlookup] at h
    by_cases he : k0 = k
    · rw [if_pos he] at h
      injection h with hv
      rw [← hv]
      exact hd.1
    · rw [if_neg he] at h
      exact ih hd.2 h

end VitAI

namespace VitAI

theorem trunc_stable_of_lookup (maxLen : Nat) (K : List (List Char × Json))
    (items : List Json)
    (hwfK : jwfV (Json.obj K))
    (hlk : jlookup K itemsKey = some (Json.arr (items.take 3))) :
    truncateObservation maxLen (dumps2 (Json.obj K)) = dumps2 (Json.obj K) := by
  by_cases h2 : (dumps2 (Json.obj K)).length ≤ maxLen
  · unfold truncateObservation
    rw [if_pos h2]
  · unfold truncateObservation
    rw [if_neg h2, loads_dumps2 (Json.obj K) hwfK]
    dsimp only
    rw [hlk]
    dsimp only
    have hlen3 : ¬ 3 < (items.take 3).length := by
      simp [List.length_take]
    rw [if_neg hlen3]
    have htt : (items.take 3).take 3 = items.take 3 := by
      simp [List.take_take]
    rw [htt]
    rw [objInsert_lookup_self_id K itemsKey (Json.arr (items.take 3)) hlk]

end VitAI

namespace VitAI

/-- **C6 (amended).** `_truncate_observation` is idempotent on payloads within
the length budget and on list-bearing JSON-dict payloads (the branch the spec
describes); only the hard-truncation fallback breaks idempotence. -/
theorem compress_idempotent_within_budget_or_list_bearing (maxLen : Nat) (obs : List Char)
    (h : obs.length ≤ maxLen ∨
      ∃ kvs items, loads obs = some (Json.obj kvs) ∧
        jlookup kvs itemsKey = some (Json.arr items)) :
    truncateObservation maxLen (truncateObservation maxLen obs) =
      truncateObservation maxLen obs := by
  have hshort : obs.length ≤ maxLen →
      truncateObservation maxLen (truncateObservation maxLen obs) =
        truncateObservation maxLen obs := by
    intro hle
    have h1 : truncateObservation maxLen obs = obs := by
      unfold truncateObservation
      rw [if_pos hle]
    rw [h1]
    exact h1
  rcases h with hle | ⟨kvs, items, hload, hitems⟩
  · exact hshort hle
  · by_cases hle : obs.length ≤ maxLen
    · exact hshort hle
    · have hwf := loads_wf obs _ hload
      rw [jwfV_obj_eq] at hwf
      obtain ⟨hnd, hO⟩ := hwf
      have hwfItems : jwfV (Json.arr items) := jlookup_wf kvs itemsKey _ hO hitems
      rw [jwfV_arr_eq] at hwfItems
      have hwfTake : jwfV (Json.arr (items.take 3)) := by
        rw [jwfV_arr_eq]
        exact jwfL_take 3 items hwfItems
      have hwf1 : jwfV (Json.obj (objInsert kvs itemsKey (Json.arr (items.take 3)))) := by
        rw [jwfV_obj_eq]
        exact ⟨nodupKeys_objInsert kvs itemsKey _ hnd,
          jwfO_objInsert kvs itemsKey _ hO hwfTake⟩
      have ht1 : truncateObservation maxLen obs
          = dumps2 (Json.obj
              (if 3 < items.length then
                objInsert (objInsert kvs itemsKey (Json.arr (items.take 3))) noteKey
                  (Json.str (noteText items.length))
              else objInsert kvs itemsKey (Json.arr (items.take 3)))) := by
        unfold truncateObservation
        rw [if_neg hle, hload]
        dsimp only
        rw [hitems]
      rw [ht1]
      by_cases h3 : 3 < items.length
      · rw [if_pos h3]
        rw [jwfV_obj_eq] at hwf1
        refine trunc_stable_of_lookup maxLen _ items ?_ ?_
        · rw [jwfV_obj_eq]
          exact ⟨nodupKeys_objInsert _ noteKey _ hwf1.1,
            jwfO_objInsert _ noteKey _ hwf1.2 (jwfV_strI _)⟩
        · rw [jlookup_objInsert_other _ noteKey itemsKey _ (by decide)]
          exact jlookup_objInsert_self kvs itemsKey _
      · rw [if_neg h3]
        exact trunc_stable_of_lookup maxLen _ items hwf1
          (jlookup_objInsert_self kvs itemsKey _)

/-- Witness for the amended C6, on an oversized 4-item list-bearing payload
with `maxLength = 10`: compressing twice equals compressing once. -/
theorem compress_idempotent_within_budget_or_list_bearing_witness :
    truncateObservation 10 (truncateObservation 10 (lit "\x7b\"items\": [1, 2, 3, 4]\x7d")) =
      truncateObservation 10 (lit "\x7b\"items\": [1, 2, 3, 4]\x7d") :=
  compress_idempotent_within_budget_or_list_bearing 10 _
    (Or.inr ⟨[(itemsKey, Json.arr [Json.num 1, Json.num 2, Json.num 3, Json.num 4])],
      [Json.num 1, Json.num 2, Json.num 3, Json.num 4], rfl, rfl⟩)

end VitAI

namespace VitAI

theorem pyFind_of_isPrefixOf (s sub : List Char) (h : sub.isPrefixOf s = true) :
    pyFind s sub = some 0 := by
  rw [pyFind.eq_def, if_pos h]

/-- The brace-counting scan stops at the balancing brace, so trailing input
never changes a successful span. -/
theorem braceSpanGo_append (s t acc : List Char) (count : Int) (out : List Char)
    (h : braceSpanGo s count acc = some out) :
    braceSpanGo (s ++ t) count acc = some out := by
  induction s generalizing acc count with
  | nil => exact Option.noConfusion h
  | cons c cs ih =>
    rw [braceSpanGo] at h
    rw [List.cons_append, braceSpanGo]
    split_ifs at h with h1 h2 h3
    · rw [if_pos h1]
      exact ih _ _ h
    · rw [if_neg h1, if_pos h2, if_pos h3]
      exact h
    · rw [if_neg h1, if_pos h2, if_neg h3]
      exact ih _ _ h
    · rw [if_neg h1, if_neg h2]
      exact ih _ _ h

end VitAI

namespace VitAI

/-! ## Claim C3 -/

def cexC3 : List Char := lit "Final Answer: use \x7b\"tool\": \"t\", \"parameters\": \x7b\x7d\x7d"

def cexC3action : List Char := lit "\x7b\"tool\": \"t\", \"parameters\": \x7b\x7d\x7d"

/-- Counterexample to C3 as stated: this text contains one well-formed action
(with both a tool identifier and a parameters mapping), yet `_parse_action`
returns `None` — the method-2 search window is cut at the first
`"Final Answer:"` marker, and method 1 never ran (no `"Action:"` marker), so
surrounding prose does matter. -/
theorem parse_action_counterexample :
    loads cexC3action = some (Json.obj [(toolKey, Json.str (lit "t")),
      (paramsKey, Json.obj [])]) ∧
    pyContains cexC3 cexC3action = true ∧
    parseAction cexC3 = none := by
  refine ⟨rfl, by decide, rfl⟩

end VitAI

namespace VitAI

/-- **C3 (amended).** Method 1 does recover a marked action independent of
surrounding prose: if the first `"Action:"` marker is followed (after
stripping) by a balanced JSON object with both a tool identifier and a
parameters mapping, `_parse_action` returns exactly that action, for every
prefix `pre` and suffix `post`. -/
theorem parse_action_method1 (pre j post post2 : List Char)
    (kvs : List (List Char × Json))
    (hfind : pyFind (pre ++ (actionMarker ++ (j ++ post))) actionMarker = some pre.length)
    (hstrip : pyStrip (j ++ post) = j ++ post2)
    (hhead : ∃ tj, j = '{' :: tj)
    (hspan : braceSpan j = some j)
    (hload : loads j = some (Json.obj kvs))
    (htool : (jlookup kvs toolKey).isSome = true)
    (hparams : (jlookup kvs paramsKey).isSome = true) :
    parseAction (pre ++ (actionMarker ++ (j ++ post))) = some (Json.obj kvs) := by
  have h7 : actionMarker.length = 7 := by decide
  have hcontains : pyContains (pre ++ (actionMarker ++ (j ++ post))) actionMarker = true := by
    rw [pyContains, hfind]
    rfl
  have hdrop : (pre ++ (actionMarker ++ (j ++ post))).drop (pre.length + 7) = j ++ post := by
    rw [show pre ++ (actionMarker ++ (j ++ post)) = (pre ++ actionMarker) ++ (j ++ post) by
      simp]
    rw [show pre.length + 7 = (pre ++ actionMarker).length by simp [h7]]
    exact List.drop_left _ _
  obtain ⟨tj, rfl⟩ := hhead
  have hfb : pyFind (('{' :: tj) ++ post2) ['{'] = some 0 := by
    refine pyFind_of_isPrefixOf _ _ ?_
    rw [List.cons_append]
    simp [List.isPrefixOf]
  have hspan2 : braceSpan (('{' :: tj) ++ post2) = some ('{' :: tj) := by
    rw [braceSpan] at hspan ⊢
    exact braceSpanGo_append _ _ _ _ _ hspan
  have hhtp : hasToolParamsE (Json.obj kvs) = .ok true := by
    simp [hasToolParamsE, pyInE, htool, hparams]
    rfl
  have hTry : parseActionTry (pre ++ (actionMarker ++ (('{' :: tj) ++ post))) =
      .ok (some (Json.obj kvs)) := by
    unfold parseActionTry
    dsimp only
    rw [if_pos hcontains, hfind]
    dsimp only
    rw [hdrop, hstrip, hfb]
    dsimp only
    rw [List.drop_zero, hspan2]
    dsimp only
    rw [hload]
    dsimp only
    rw [hhtp]
  rw [parseAction, hTry]

/-- Witness for the amended C3: prose before and after the marked action does
not prevent method 1 from recovering it. -/
theorem parse_action_method1_witness :
    parseAction (lit "Thought: look\n" ++ (actionMarker
        ++ (lit "\x7b\"tool\": \"t\", \"parameters\": \x7b\x7d\x7d" ++ lit " done"))) =
      some (Json.obj [(toolKey, Json.str (lit "t")), (paramsKey, Json.obj [])]) :=
  parse_action_method1 (lit "Thought: look\n")
    (lit "\x7b\"tool\": \"t\", \"parameters\": \x7b\x7d\x7d") (lit " done") (lit " done")
    [(toolKey, Json.str (lit "t")), (paramsKey, Json.obj [])]
    (by decide) rfl ⟨_, rfl⟩ rfl rfl rfl rfl

end VitAI

namespace VitAI

/-! ## `ReActAgent._execute_tool` (the spec's ToolExecutor)

`agent.py`, lines 486-659.  The GitHub client of `search.py` (whose
`_request` raises `RuntimeError` on rate limits and non-ok statuses), the
`base64`/UTF-8 codecs and Python's `repr` of nested containers are external
collaborators, modelled as an oracle; `Except.error` carries `str(e)` of a
raised exception. -/

def errorKey : List Char := lit "error"

def reposKey : List Char := lit "repos"

def queryKey : List Char := lit "query"

def repoKey : List Char := lit "repo"

def pathKey : List Char := lit "path"

def branchKey : List Char := lit "branch"

def invalidRepoMsg : List Char := lit "Invalid repo parameter. Must be in format owner/repo"

/-- Python type names, as they appear in `str(e)` of a `TypeError` or
`AttributeError` raised by the body. -/
def typeName : Json → List Char
  | .null => lit "NoneType"
  | .bool _ => lit "bool"
  | .num _ => lit "int"
  | .str _ => lit "str"
  | .arr _ => lit "list"
  | .obj _ => lit "dict"

/-- Python truthiness of a JSON-shaped value. -/
def truthy : Json → Bool
  | .null => false
  | .bool b => b
  | .num n => n != 0
  | .str s => !s.isEmpty
  | .arr xs => !xs.isEmpty
  | .obj kvs => !kvs.isEmpty

/-- `v.get(k, default)` where `v` may be any value: a non-dict raises
`AttributeError`.  (`get` returns a stored `None`; the default applies only
to a missing key, as in Python.) -/
def jGetE (v : Json) (k : List Char) (dflt : Json) : Except (List Char) Json :=
  match v with
  | .obj kvs => .ok ((jlookup kvs k).getD dflt)
  | _ => .error (lit "'" ++ typeName v ++ lit "' object has no attribute 'get'")

/-- `for x in v`: iteration over a JSON-shaped value — elements of a list,
characters of a string, keys of a dict; the rest raise `TypeError`. -/
def pyIterE : Json → Except (List Char) (List Json)
  | .arr xs => .ok xs
  | .str s => .ok (s.map (fun c => Json.str [c]))
  | .obj kvs => .ok (kvs.map (fun kv => Json.str kv.1))
  | v => .error (lit "'" ++ typeName v ++ lit "' object is not iterable")

/-- `v[:n]`: slicing; non-subscriptable values raise `TypeError`. -/
def pySliceE (v : Json) (n : Nat) : Except (List Char) Json :=
  match v with
  | .arr xs => .ok (Json.arr (xs.take n))
  | .str s => .ok (Json.str (s.take n))
  | v => .error (lit "'" ++ typeName v ++ lit "' object is not subscriptable")

/-- `str(v)` / f-string rendering.  Scalars follow Python exactly; the
`repr`-style rendering of nested containers comes from the oracle (no claim
depends on its text). -/
def fmtVal (rp : Json → List Char) : Json → List Char
  | .str s => s
  | .num n => intStr n
  | .bool true => lit "True"
  | .bool false => lit "False"
  | .null => lit "None"
  | v => rp v

/-- `' '.join(items)`. -/
def joinSp : List (List Char) → List Char
  | [] => []
  | [x] => x
  | x :: xs => x ++ ' ' :: joinSp xs

/-- `s.split(c, 1)` for a single-character separator known to occur in `s`. -/
def pySplitOnce (c : Char) (s : List Char) : List Char × List Char :=
  (s.takeWhile (fun d => !(d == c)), (s.dropWhile (fun d => !(d == c))).drop 1)

/-- `s.split(c)` for a single-character separator. -/
def pySplitAll (c : Char) (s : List Char) : List (List Char) :=
  s.foldr
    (fun d acc =>
      if d == c then [] :: acc
      else
        match acc with
        | a :: rest => (d :: a) :: rest
        | [] => [[d]])
    [[]]

/-- `xs[-2:]`. -/
def takeLast2 {α : Type} (xs : List α) : List α := xs.drop (xs.length - 2)

/-- Lexicographic `<` on Python strings (by code point). -/
def strLt : List Char → List Char → Bool
  | [], [] => false
  | [], _ :: _ => true
  | _ :: _, [] => false
  | a :: as, b :: bs =>
    if a.toNat < b.toNat then true
    else if b.toNat < a.toNat then false
    else strLt as bs

def insertLe {α : Type} (le : α → α → Bool) (x : α) : List α → List α
  | [] => [x]
  | y :: ys => if le x y then x :: y :: ys else y :: insertLe le x ys

def sortBy {α : Type} (le : α → α → Bool) : List α → List α
  | [] => []
  | x :: xs => insertLe le x (sortBy le xs)

def jStrLe (a b : Json) : Bool :=
  match a, b with
  | .str s, .str t => !(strLt t s)
  | _, _ => false

def jNumLe (a b : Json) : Bool :=
  match a, b with
  | .num m, .num n => m ≤ n
  | _, _ => false

def isJStr : Json → Bool
  | .str _ => true
  | _ => false

def isJNum : Json → Bool
  | .num _ => true
  | _ => false

/-- `sorted(xs)` on JSON-shaped values.  Fewer than two elements compare
nothing; homogeneous strings (resp. numbers) sort as in Python; any other
comparison raises `TypeError`, as the interpreter's `<` does. -/
def sortedE : List Json → Except (List Char) (List Json)
  | [] => .ok []
  | [x] => .ok [x]
  | xs =>
    if xs.all isJStr then .ok (sortBy jStrLe xs)
    else if xs.all isJNum then .ok (sortBy jNumLe xs)
    else .error (lit "'<' not supported between instances")

/-- The external collaborators of `_execute_tool`: the four GitHub client
calls of `search.py` (`.error` = `str(e)` of the raised exception, e.g. a
rate-limit `RuntimeError`), the `base64`/UTF-8 codecs, and Python's `repr`
of nested containers. -/
structure ToolOracle where
  getFileContents : List Char → List Char → Json → Json → Except (List Char) Json
  getRepositoryTree : List Char → List Char → Json → Except (List Char) Json
  searchCode : Json → Except (List Char) Json
  searchIssues : Json → Except (List Char) Json
  b64decode : Json → Except (List Char) (List Nat)
  utf8decode : List Nat → Option (List Char)
  reprV : Json → List Char

/-- The `get_file_contents` branch, lines 498-547. -/
def getFileContentsBody (o : ToolOracle) (pkvs : List (List Char × Json)) :
    Except (List Char) (List Char) := do
  let repo := (jlookup pkvs repoKey).getD (Json.str [])
  let path := (jlookup pkvs pathKey).getD (Json.str [])
  let branch := (jlookup pkvs branchKey).getD Json.null
  if !truthy repo then
    pure (dumpsC (Json.obj [(errorKey, Json.str invalidRepoMsg)]))
  else do
    let slashIn ← pyInE (lit "/") repo
    if !slashIn then
      pure (dumpsC (Json.obj [(errorKey, Json.str invalidRepoMsg)]))
    else if !truthy path then
      pure (dumpsC (Json.obj [(errorKey, Json.str (lit "path parameter is required"))]))
    else do
      let repoStr ←
        match repo with
        | .str s => Except.ok s
        | v => Except.error (lit "'" ++ typeName v ++ lit "' object has no attribute 'split'")
      let ow := pySplitOnce '/' repoStr
      let fileData ← o.getFileContents ow.1 ow.2 path branch
      let content ← jGetE fileData (lit "content") (Json.str [])
      let encoding ← jGetE fileData (lit "encoding") (Json.str [])
      let decoded : Option (List Char) :=
        if jeqStr encoding (lit "base64") && truthy content then
          match o.b64decode content with
          | .ok bytes =>
            match o.utf8decode bytes with
            | some s => some s
            | none => some (lit "[Binary file, size: " ++ natStr bytes.length ++ lit " bytes]")
          | .error e => some (lit "[Error decoding content: " ++ e ++ lit "]")
        else none
      let contentOut : Json :=
        match decoded with
        | some s => if s.isEmpty then content else Json.str s
        | none => content
      let nameV ← jGetE fileData (lit "name") Json.null
      let sizeV ← jGetE fileData (lit "size") Json.null
      let typeV ← jGetE fileData (lit "type") Json.null
      let shaV ← jGetE fileData (lit "sha") Json.null
      let htmlUrl ← jGetE fileData (lit "html_url") Json.null
      pure (dumps2 (Json.obj [
        (lit "repository", repo), (pathKey, path), (lit "name", nameV),
        (lit "size", sizeV), (lit "type", typeV), (lit "sha", shaV),
        (lit "encoding", encoding), (lit "content", contentOut),
        (lit "html_url", htmlUrl)]))

/-- The `get_repo_structure` branch, lines 549-590. -/
def getRepoStructureBody (o : ToolOracle) (pkvs : List (List Char × Json)) :
    Except (List Char) (List Char) := do
  let repo := (jlookup pkvs repoKey).getD (Json.str [])
  let branch := (jlookup pkvs branchKey).getD Json.null
  if !truthy repo then
    pure (dumpsC (Json.obj [(errorKey, Json.str invalidRepoMsg)]))
  else do
    let slashIn ← pyInE (lit "/") repo
    if !slashIn then
      pure (dumpsC (Json.obj [(errorKey, Json.str invalidRepoMsg)]))
    else do
      let repoStr ←
        match repo with
        | .str s => Except.ok s
        | v => Except.error (lit "'" ++ typeName v ++ lit "' object has no attribute 'split'")
      let ow := pySplitOnce '/' repoStr
      let treeData ← o.getRepositoryTree ow.1 ow.2 branch
      let treeItemsJ ← jGetE treeData (lit "tree") (Json.arr [])
      let items ← pyIterE treeItemsJ
      let infos ← items.mapM (fun item => do
        let p ← jGetE item pathKey Json.null
        let t ← jGetE item (lit "type") Json.null
        let sz ← jGetE item (lit "size") Json.null
        pure (p, t, sz))
      let dirs := (infos.filter (fun i => jeqStr i.2.1 (lit "tree"))).map (fun i => i.1)
      let files := infos.filter (fun i => !jeqStr i.2.1 (lit "tree"))
      let sortedDirs ← sortedE dirs
      let sortedFiles ← sortedE (files.map (fun i => i.1))
      pure (dumps2 (Json.obj [
        (lit "repository", repo),
        (lit "total_items", Json.num (items.length : Int)),
        (lit "total_directories", Json.num (dirs.length : Int)),
        (lit "total_files", Json.num (files.length : Int)),
        (lit "directories", Json.arr sortedDirs),
        (lit "files", Json.arr sortedFiles)]))

/-- Lines 592-601: `repos = parameters.get('repos', self.repositories)` and
the `full_query` construction with `repo:` qualifiers. -/
def fullQueryE (o : ToolOracle) (repositories : List (List Char))
    (pkvs : List (List Char × Json)) : Except (List Char) Json := do
  let query := (jlookup pkvs queryKey).getD (Json.str [])
  match jlookup pkvs reposKey with
  | some reposJ =>
    if truthy reposJ then do
      let items ← pyIterE reposJ
      let quals := joinSp (items.map (fun r => lit "repo:" ++ fmtVal o.reprV r))
      pure (Json.str (pyStrip (fmtVal o.reprV query ++ ' ' :: quals)))
    else pure query
  | none =>
    if !repositories.isEmpty then
      let quals := joinSp (repositories.map (fun r => lit "repo:" ++ r))
      pure (Json.str (pyStrip (fmtVal o.reprV query ++ ' ' :: quals)))
    else pure query

/-- The `search_code` branch, lines 603-626. -/
def searchCodeBody (o : ToolOracle) (fullQuery : Json) :
    Except (List Char) (List Char) := do
  let results ← o.searchCode fullQuery
  let itemsJ ← jGetE results itemsKey (Json.arr [])
  let sliced ← pySliceE itemsJ 10
  let items ← pyIterE sliced
  let simplified ← items.mapM (fun item => do
    let nameV ← jGetE item (lit "name") Json.null
    let pathV ← jGetE item pathKey Json.null
    let repoObj ← jGetE item (lit "repository") (Json.obj [])
    let fullName ← jGetE repoObj (lit "full_name") Json.null
    let htmlUrl ← jGetE item (lit "html_url") Json.null
    let score ← jGetE item (lit "score") Json.null
    pure (Json.obj [(lit "name", nameV), (pathKey, pathV),
      (lit "repository", fullName), (lit "html_url", htmlUrl), (lit "score", score)]))
  let totalCount ← jGetE results (lit "total_count") (Json.num 0)
  pure (dumps2 (Json.obj [(lit "total_count", totalCount),
    (itemsKey, Json.arr simplified)]))

/-- The `search_issues` branch, lines 628-653. -/
def searchIssuesBody (o : ToolOracle) (fullQuery : Json) :
    Except (List Char) (List Char) := do
  let results ← o.searchIssues fullQuery
  let itemsJ ← jGetE results itemsKey (Json.arr [])
  let sliced ← pySliceE itemsJ 10
  let items ← pyIterE sliced
  let simplified ← items.mapM (fun item => do
    let title ← jGetE item (lit "title") Json.null
    let number ← jGetE item (lit "number") Json.null
    let state ← jGetE item (lit "state") Json.null
    let repoUrl ← jGetE item (lit "repository_url") (Json.str [])
    let repoParts ←
      match repoUrl with
      | .str s => Except.ok (Json.arr ((takeLast2 (pySplitAll '/' s)).map Json.str))
      | v => Except.error (lit "'" ++ typeName v ++ lit "' object has no attribute 'split'")
    let htmlUrl ← jGetE item (lit "html_url") Json.null
    let bodyCond ← jGetE item (lit "body") Json.null
    let bodyVal ←
      if truthy bodyCond then do
        let b ← jGetE item (lit "body") (Json.str [])
        let slicedB ← pySliceE b 200
        match slicedB with
        | .str s => Except.ok (Json.str (s ++ lit "..."))
        | v => Except.error (lit "can only concatenate " ++ typeName v ++ lit " to str")
      else Except.ok Json.null
    let labelsJ ← jGetE item (lit "labels") (Json.arr [])
    let ls ← pyIterE labelsJ
    let names ← ls.mapM (fun l => jGetE l (lit "name") Json.null)
    pure (Json.obj [(lit "title", title), (lit "number", number), (lit "state", state),
      (lit "repository", repoParts), (lit "html_url", htmlUrl), (lit "body", bodyVal),
      (lit "labels", Json.arr names)]))
  let totalCount ← jGetE results (lit "total_count") (Json.num 0)
  pure (dumps2 (Json.obj [(lit "total_count", totalCount),
    (itemsKey, Json.arr simplified)]))

/-- The body of the `try` block of `_execute_tool`: `.error e` models an
exception escaping to the `except` clause with `str(e) = e`. -/
def executeToolBody (o : ToolOracle) (repositories : List (List Char))
    (toolName : List Char) (pkvs : List (List Char × Json)) :
    Except (List Char) (List Char) :=
  if toolName = lit "get_file_contents" then getFileContentsBody o pkvs
  else if toolName = lit "get_repo_structure" then getRepoStructureBody o pkvs
  else do
    let fullQuery ← fullQueryE o repositories pkvs
    if toolName = lit "search_code" then searchCodeBody o fullQuery
    else if toolName = lit "search_issues" then searchIssuesBody o fullQuery
    else pure (dumpsC (Json.obj [(errorKey, Json.str (lit "Unknown tool: " ++ toolName))]))

/-- `_execute_tool(tool_name, parameters)`: the `try`/`except` boundary,
lines 497 and 658-659. -/
def executeTool (o : ToolOracle) (repositories : List (List Char))
    (toolName : List Char) (pkvs : List (List Char × Json)) : List Char :=
  match executeToolBody o repositories toolName pkvs with
  | .ok r => r
  | .error e => dumpsC (Json.obj [(errorKey, Json.str e)])

end VitAI

namespace VitAI

theorem loads_dumpsC (v : Json) (h : jwfV v) : loads (dumpsC v) = some v :=
  loads_dumpsVal v h false 0

theorem jwfV_singleStr (k s : List Char) : jwfV (Json.obj [(k, Json.str s)]) := by
  rw [jwfV_obj_eq]
  refine ⟨by simp, ?_⟩
  rw [jwfO_cons_eq]
  exact ⟨jwfV_strI s, jwfO_nil⟩

/-! ## Claim C5 -/

def cexOracleC5 : ToolOracle := {
  getFileContents := fun _ _ _ _ => Except.ok (Json.obj [
    (lit "name", Json.str (lit "img.png")), (lit "size", Json.num 3),
    (lit "type", Json.str (lit "file")), (lit "sha", Json.str (lit "abc")),
    (lit "encoding", Json.str (lit "base64")), (lit "content", Json.str (lit "iVBO")),
    (lit "html_url", Json.null)]),
  getRepositoryTree := fun _ _ _ => Except.error [],
  searchCode := fun _ => Except.error [],
  searchIssues := fun _ => Except.error [],
  b64decode := fun _ => Except.ok [137, 80, 78],
  utf8decode := fun _ => none,
  reprV := fun _ => [] }

def cexC5payload : List (List Char × Json) := [
  (lit "repository", Json.str (lit "o/r")), (pathKey, Json.str (lit "img.png")),
  (lit "name", Json.str (lit "img.png")), (lit "size", Json.num 3),
  (lit "type", Json.str (lit "file")), (lit "sha", Json.str (lit "abc")),
  (lit "encoding", Json.str (lit "base64")),
  (lit "content", Json.str (lit "[Binary file, size: 3 bytes]")),
  (lit "html_url", Json.null)]

/-- Counterexample to C5 as stated: a content-decoding failure (the fetched
base64 content does not decode as UTF-8) is *not* returned as a payload with
an `error` field — `_execute_tool` reports it inline as placeholder content
inside an ordinary success payload. -/
theorem execute_tool_decode_failure_counterexample :
    executeTool cexOracleC5 [] (lit "get_file_contents")
        [(repoKey, Json.str (lit "o/r")), (pathKey, Json.str (lit "img.png"))] =
      dumps2 (Json.obj cexC5payload) ∧
    loads (dumps2 (Json.obj cexC5payload)) = some (Json.obj cexC5payload) ∧
    jlookup cexC5payload errorKey = none ∧
    jlookup cexC5payload (lit "content") =
      some (Json.str (lit "[Binary file, size: 3 bytes]")) := by
  refine ⟨rfl, ?_, rfl, rfl⟩
  refine loads_dumps2 _ ?_
  rw [jwfV_obj_eq]
  refine ⟨by decide, ?_⟩
  unfold cexC5payload
  rw [jwfO_cons_eq, jwfO_cons_eq, jwfO_cons_eq, jwfO_cons_eq, jwfO_cons_eq,
    jwfO_cons_eq, jwfO_cons_eq, jwfO_cons_eq, jwfO_cons_eq]
  exact ⟨jwfV_strI _, jwfV_strI _, jwfV_strI _, jwfV_numI _, jwfV_strI _,
    jwfV_strI _, jwfV_strI _, jwfV_strI _, jwfV_nullI, jwfO_nil⟩

/-- **C5 (amended).** Any exception raised inside the tool body (malformed
input types, client HTTP or rate-limit errors, …) is caught at the boundary
and returned as the serialized payload `\x7b"error": str(e)\x7d`, which parses
back to a dict whose `error` field carries the message — no exception
reaches the caller.  (Content-decoding failures, however, are reported as
placeholder *content* in a success payload, not through an `error` field:
see the counterexample.) -/
theorem execute_tool_error_boundary (o : ToolOracle) (repositories : List (List Char))
    (toolName : List Char) (pkvs : List (List Char × Json)) (e : List Char)
    (h : executeToolBody o repositories toolName pkvs = .error e) :
    executeTool o repositories toolName pkvs = dumpsC (Json.obj [(errorKey, Json.str e)]) ∧
    loads (executeTool o repositories toolName pkvs) =
      some (Json.obj [(errorKey, Json.str e)]) ∧
    jlookup [(errorKey, Json.str e)] errorKey = some (Json.str e) := by
  have h1 : executeTool o repositories toolName pkvs =
      dumpsC (Json.obj [(errorKey, Json.str e)]) := by
    unfold executeTool
    rw [h]
  refine ⟨h1, ?_, rfl⟩
  rw [h1]
  exact loads_dumpsC _ (jwfV_singleStr _ _)

def rateLimitOracle : ToolOracle := {
  getFileContents := fun _ _ _ _ => Except.error [],
  getRepositoryTree := fun _ _ _ => Except.error [],
  searchCode := fun _ =>
    Except.error (lit "GitHub API rate limit exceeded. Retry after ~42s."),
  searchIssues := fun _ => Except.error [],
  b64decode := fun _ => Except.error [],
  utf8decode := fun _ => none,
  reprV := fun _ => [] }

/-- Witness for the amended C5: a rate-limit `RuntimeError` raised by the
search client surfaces as a parsed `error` payload, not as an exception. -/
theorem execute_tool_error_boundary_witness :
    executeToolBody rateLimitOracle [lit "o/r"] (lit "search_code") [] =
      .error (lit "GitHub API rate limit exceeded. Retry after ~42s.") ∧
    loads (executeTool rateLimitOracle [lit "o/r"] (lit "search_code") []) =
      some (Json.obj [(errorKey,
        Json.str (lit "GitHub API rate limit exceeded. Retry after ~42s."))]) :=
  ⟨rfl, (execute_tool_error_boundary rateLimitOracle [lit "o/r"] (lit "search_code") []
    (lit "GitHub API rate limit exceeded. Retry after ~42s.") rfl).2.1⟩

/-! ## Claim C10 -/

def nullOracle : ToolOracle := {
  getFileContents := fun _ _ _ _ => Except.error [],
  getRepositoryTree := fun _ _ _ => Except.error [],
  searchCode := fun _ => Except.error [],
  searchIssues := fun _ => Except.error [],
  b64decode := fun _ => Except.error [],
  utf8decode := fun _ => none,
  reprV := fun _ => [] }

/-- Counterexample to C10 as stated: with an unknown tool name *and* a
non-iterable `repos` parameter, the `repos` prelude (lines 592-601) raises a
`TypeError` before the dispatch reaches the unknown-tool branch, so the
returned payload names the `TypeError`, not the unknown tool. -/
theorem unknown_tool_counterexample :
    executeTool nullOracle [lit "o/r"] (lit "foo") [(reposKey, Json.num 5)] =
      dumpsC (Json.obj [(errorKey, Json.str (lit "'int' object is not iterable"))]) ∧
    loads (executeTool nullOracle [lit "o/r"] (lit "foo") [(reposKey, Json.num 5)]) =
      some (Json.obj [(errorKey, Json.str (lit "'int' object is not iterable"))]) ∧
    lit "'int' object is not iterable" ≠ lit "Unknown tool: " ++ lit "foo" := by
  have h1 : executeTool nullOracle [lit "o/r"] (lit "foo") [(reposKey, Json.num 5)] =
      dumpsC (Json.obj [(errorKey, Json.str (lit "'int' object is not iterable"))]) := rfl
  refine ⟨h1, ?_, by decide⟩
  rw [h1]
  exact loads_dumpsC _ (jwfV_singleStr _ _)

/-- **C10 (amended).** For every tool name other than the four known ones,
*provided the `repos` prelude does not itself raise* (here: no `repos`
parameter was supplied, so the agent's own repository list is used),
`_execute_tool` returns the structured payload
`\x7b"error": "Unknown tool: <name>"\x7d` naming the unrecognized tool. -/
theorem unknown_tool_payload (o : ToolOracle) (repositories : List (List Char))
    (toolName : List Char) (pkvs : List (List Char × Json))
    (hgfc : ¬ toolName = lit "get_file_contents")
    (hgrs : ¬ toolName = lit "get_repo_structure")
    (hsc : ¬ toolName = lit "search_code")
    (hsi : ¬ toolName = lit "search_issues")
    (hrepos : jlookup pkvs reposKey = none) :
    executeTool o repositories toolName pkvs =
      dumpsC (Json.obj [(errorKey, Json.str (lit "Unknown tool: " ++ toolName))]) ∧
    loads (executeTool o repositories toolName pkvs) =
      some (Json.obj [(errorKey, Json.str (lit "Unknown tool: " ++ toolName))]) := by
  have hq : ∃ q, fullQueryE o repositories pkvs = .ok q := by
    unfold fullQueryE
    rw [hrepos]
    dsimp only
    by_cases hr : repositories.isEmpty
    · exact ⟨(jlookup pkvs queryKey).getD (Json.str []),
        by rw [if_neg (by simp [hr])]; rfl⟩
    · exact ⟨Json.str (pyStrip
          (fmtVal o.reprV ((jlookup pkvs queryKey).getD (Json.str []))
            ++ ' ' :: joinSp (repositories.map (fun r => lit "repo:" ++ r)))),
        by rw [if_pos (by simp [hr])]; rfl⟩
  obtain ⟨q, hq⟩ := hq
  have hbody : executeToolBody o repositories toolName pkvs =
      Except.ok (dumpsC (Json.obj [(errorKey,
        Json.str (lit "Unknown tool: " ++ toolName))])) := by
    unfold executeToolBody
    rw [if_neg hgfc, if_neg hgrs, hq]
    show (if toolName = lit "search_code" then searchCodeBody o q
        else if toolName = lit "search_issues" then searchIssuesBody o q
        else pure (dumpsC (Json.obj [(errorKey,
          Json.str (lit "Unknown tool: " ++ toolName))]))) =
      Except.ok (dumpsC (Json.obj [(errorKey,
        Json.str (lit "Unknown tool: " ++ toolName))]))
    rw [if_neg hsc, if_neg hsi]
    rfl
  have h1 : executeTool o repositories toolName pkvs =
      dumpsC (Json.obj [(errorKey, Json.str (lit "Unknown tool: " ++ toolName))]) := by
    unfold executeTool
    rw [hbody]
  refine ⟨h1, ?_⟩
  rw [h1]
  exact loads_dumpsC _ (jwfV_singleStr _ _)

/-- Witness for the amended C10, on the unknown tool name `"foo"` with no
`repos` parameter. -/
theorem unknown_tool_payload_witness :
    executeTool nullOracle [lit "a/b"] (lit "foo") [] =
      dumpsC (Json.obj [(errorKey, Json.str (lit "Unknown tool: " ++ lit "foo"))]) ∧
    loads (executeTool nullOracle [lit "a/b"] (lit "foo") []) =
      some (Json.obj [(errorKey, Json.str (lit "Unknown tool: " ++ lit "foo"))]) :=
  unknown_tool_payload nullOracle [lit "a/b"] (lit "foo") []
    (by decide) (by decide) (by decide) (by decide) rfl

end VitAI

namespace VitAI

/-! ## The `query` while-loop (the spec's OrchestrationLoop)

`agent.py`, lines 897-952.  The model call `_call_llm` is an oracle over the
conversation so far; the composite `_execute_tool` of a parsed action is the
`observe` oracle (C1 holds for every tool behavior); `_truncate_observation`
is applied to it with the default `max_length=1500` as at line 916. -/

inductive Role where
  | system : Role
  | user : Role
  | assistant : Role

structure Msg where
  role : Role
  content : List Char

/-- The observation user message of lines 920-938. -/
def observationMsg (obs : List Char) : List Char :=
  lit "Observation: " ++ obs ++ lit "\n\n⚠️ CRITICAL: Provide ONLY your next step - do NOT simulate the entire conversation!\n\nBased on this observation, provide EITHER:\n\n1. ONE more Thought + Action if you need more information:\n   Thought: [what you're thinking]\n   Action: \x7b\"tool\": \"...\", \"parameters\": \x7b...\x7d\x7d\n   [STOP HERE - do not write Step 2, do not write Observation, do not write Final Answer yet]\n\n2. OR Final Answer if you have enough information:\n   Final Answer: [your complete answer based on ALL observations you've received]\n\nRemember: \n- Provide ONLY ONE Thought and ONE Action per response\n- Do NOT write \"Step 1, Step 2, etc.\"\n- Do NOT write \"Observation:\" (the system provides that)\n- Do NOT provide Final Answer until you've actually gathered enough information"

/-- Python `repr` of the agent's repository list, as interpolated at line 949. -/
def listRepr (rs : List (List Char)) : List Char :=
  lit "[" ++ joinComma rs ++ lit "]"
where
  joinComma : List (List Char) → List Char
    | [] => []
    | [r] => '\x27' :: r ++ ['\x27']
    | r :: rest => '\x27' :: r ++ '\x27' :: ',' :: ' ' :: joinComma rest

/-- The guidance user message of line 949. -/
def guidanceMsg (repositories : List (List Char)) : List Char :=
  lit "I didn't find a valid action in your response. Please provide EITHER:\n\n1. A JSON action in one of these formats:\n\n   For searching code:\n   \x7b\"tool\": \"search_code\", \"parameters\": \x7b\"query\": \"your search query\", \"repos\": "
    ++ listRepr repositories
    ++ lit "\x7d\x7d\n\n   For searching issues:\n   \x7b\"tool\": \"search_issues\", \"parameters\": \x7b\"query\": \"your search query\", \"repos\": "
    ++ listRepr repositories
    ++ lit "\x7d\x7d\n\n   For getting repository structure:\n   \x7b\"tool\": \"get_repo_structure\", \"parameters\": \x7b\"repo\": \"owner/repo\"\x7d\x7d\n\nOR\n\n2. Final Answer: [your answer if you have enough information]\n\nRemember: Start with 'Thought:' to explain your reasoning, then provide 'Action:' with the JSON."

/-- The fixed exhaustion message of line 952. -/
def exhaustionMessage (maxIter : Nat) : List Char :=
  lit "I've reached the maximum number of reasoning steps ("
    ++ natStr maxIter
    ++ lit "). Based on my investigation, I was unable to gather sufficient information to provide a complete answer to your question. Please try rephrasing your question or being more specific about what you'd like to know."

/-- The `while iteration < self.max_iterations` loop, structural on the
remaining iterations; the second component counts the model calls made.
`if action:` is Python truthiness of the parsed dict, `if final_answer:`
truthiness of the extracted string (`extractFinalAnswer` never returns an
empty one). -/
def queryLoopGo (callLLM : List Msg → List Char) (observe : Json → List Char)
    (repositories : List (List Char)) (maxIter : Nat) :
    Nat → List Msg → List Char × Nat
  | 0, _ => (exhaustionMessage maxIter, 0)
  | remaining + 1, msgs =>
    let response := callLLM msgs
    match parseAction response with
    | some action =>
      if truthy action then
        let observation := truncateObservation 1500 (observe action)
        let msgs2 := msgs ++ [⟨Role.assistant, response⟩,
          ⟨Role.user, observationMsg observation⟩]
        ((queryLoopGo callLLM observe repositories maxIter remaining msgs2).1,
         (queryLoopGo callLLM observe repositories maxIter remaining msgs2).2 + 1)
      else
        match extractFinalAnswer response with
        | some answer => (answer, 1)
        | none =>
          let msgs2 := msgs ++ [⟨Role.assistant, response⟩,
            ⟨Role.user, guidanceMsg repositories⟩]
          ((queryLoopGo callLLM observe repositories maxIter remaining msgs2).1,
           (queryLoopGo callLLM observe repositories maxIter remaining msgs2).2 + 1)
    | none =>
      match extractFinalAnswer response with
      | some answer => (answer, 1)
      | none =>
        let msgs2 := msgs ++ [⟨Role.assistant, response⟩,
          ⟨Role.user, guidanceMsg repositories⟩]
        ((queryLoopGo callLLM observe repositories maxIter remaining msgs2).1,
         (queryLoopGo callLLM observe repositories maxIter remaining msgs2).2 + 1)

/-- Lines 897-952: the loop entered with the initial conversation. -/
def queryReact (callLLM : List Msg → List Char) (observe : Json → List Char)
    (repositories : List (List Char)) (maxIter : Nat) (initMsgs : List Msg) :
    List Char × Nat :=
  queryLoopGo callLLM observe repositories maxIter maxIter initMsgs

theorem queryLoopGo_bound (callLLM : List Msg → List Char) (observe : Json → List Char)
    (repositories : List (List Char)) (maxIter : Nat) :
    ∀ (rem : Nat) (msgs : List Msg),
      (queryLoopGo callLLM observe repositories maxIter rem msgs).2 ≤ rem ∧
      ((∀ m : List Msg, extractFinalAnswer (callLLM m) = none) →
        (queryLoopGo callLLM observe repositories maxIter rem msgs).1 =
          exhaustionMessage maxIter) := by
  intro rem
  induction rem with
  | zero =>
    intro msgs
    exact ⟨Nat.le_refl 0, fun _ => rfl⟩
  | succ r ih =>
    intro msgs
    rw [queryLoopGo]
    cases hp : parseAction (callLLM msgs) with
    | some action =>
      dsimp only
      by_cases ht : truthy action
      · rw [if_pos ht]
        refine ⟨Nat.succ_le_succ (ih _).1, fun hne => (ih _).2 hne⟩
      · rw [if_neg ht]
        cases he : extractFinalAnswer (callLLM msgs) with
        | some answer =>
          refine ⟨Nat.succ_le_succ (Nat.zero_le r), fun hne => ?_⟩
          rw [hne msgs] at he
          exact Option.noConfusion he
        | none =>
          dsimp only
          refine ⟨Nat.succ_le_succ (ih _).1, fun hne => (ih _).2 hne⟩
    | none =>
      dsimp only
      cases he : extractFinalAnswer (callLLM msgs) with
      | some answer =>
        refine ⟨Nat.succ_le_succ (Nat.zero_le r), fun hne => ?_⟩
        rw [hne msgs] at he
        exact Option.noConfusion he
      | none =>
        dsimp only
        refine ⟨Nat.succ_le_succ (ih _).1, fun hne => (ih _).2 hne⟩

end VitAI

namespace VitAI

/-- **C1.** For every oracle behavior (model responses, tool results), the
loop makes at most `max_iterations` model calls and returns a string (the
embedding is a total function); if the extractor never accepts a terminal
answer, the returned string is the fixed apologetic exhaustion message, which
names the configured maximum. -/
theorem query_loop_terminates_with_exhaustion_message
    (callLLM : List Msg → List Char) (observe : Json → List Char)
    (repositories : List (List Char)) (maxIter : Nat) (initMsgs : List Msg)
    (hne : ∀ m : List Msg, extractFinalAnswer (callLLM m) = none) :
    (queryReact callLLM observe repositories maxIter initMsgs).2 ≤ maxIter ∧
    (queryReact callLLM observe repositories maxIter initMsgs).1 =
      exhaustionMessage maxIter ∧
    pyContains (exhaustionMessage maxIter) (natStr maxIter) = true := by
  have h := queryLoopGo_bound callLLM observe repositories maxIter maxIter initMsgs
  refine ⟨h.1, h.2 hne, ?_⟩
  refine (pyContains_iff _ _).mpr ?_
  exact ⟨lit "I've reached the maximum number of reasoning steps (",
    lit "). Based on my investigation, I was unable to gather sufficient information to provide a complete answer to your question. Please try rephrasing your question or being more specific about what you'd like to know.",
    by rw [exhaustionMessage]⟩

/-- Witness for C1: a model that always answers plain prose (no action, no
terminal answer) exhausts a 2-iteration ceiling and receives the fixed
message naming it. -/
theorem query_loop_terminates_with_exhaustion_message_witness :
    (queryReact (fun _ => lit "hello") (fun _ => []) [] 2 []).2 ≤ 2 ∧
    (queryReact (fun _ => lit "hello") (fun _ => []) [] 2 []).1 =
      exhaustionMessage 2 ∧
    pyContains (exhaustionMessage 2) (natStr 2) = true :=
  query_loop_terminates_with_exhaustion_message
    (fun _ => lit "hello") (fun _ => []) [] 2 [] (fun _ => rfl)

end VitAI

namespace VitAI

/-! ## `_load_repository_structures` and the cache prelude of `query`
(the spec's RepositoryIndex cache)

`agent.py`, lines 225-341 and 824-837.  What gets loaded per repository
(saved file parsing or the API fallback, lines 240-337) is filesystem- and
network-dependent and is the `structureFor` oracle; what matters to C8 is
the dict discipline: the loader assigns `self.repo_structures[repo] = …` for
each repository of the *current* list and never clears the dict first. -/

structure AgentState where
  repositories : List (List Char)
  repoStructures : List (List Char × Json)

/-- `_load_repository_structures`: one dict assignment per repository in
order, on top of the existing cache. -/
def loadRepositoryStructures (structureFor : List Char → Json) (st : AgentState) :
    AgentState :=
  AgentState.mk st.repositories
    (st.repositories.foldl (fun d repo => objInsert d repo (structureFor repo))
      st.repoStructures)

/-- `set(a) == set(b)` for lists of strings. -/
def setEq (a b : List (List Char)) : Bool :=
  a.all (fun x => b.contains x) && b.all (fun x => a.contains x)

/-- Lines 824-837 of `query`: adopt a truthy `repositories` argument,
reload on a set change, and load when the cache is empty. -/
def queryCachePrelude (structureFor : List Char → Json)
    (repositoriesArg : Option (List (List Char))) (st : AgentState) : AgentState :=
  let st1 :=
    match repositoriesArg with
    | some rs =>
      if rs.isEmpty then st
      else
        let reposChanged := !setEq rs st.repositories
        let st2 := AgentState.mk rs st.repoStructures
        if reposChanged then loadRepositoryStructures structureFor st2 else st2
    | none => st
  if st1.repoStructures.isEmpty && !st1.repositories.isEmpty then
    loadRepositoryStructures structureFor st1
  else st1

theorem objInsert_ne_nil (d : List (List Char × Json)) (k : List Char) (v : Json) :
    objInsert d k v ≠ [] := by
  cases d with
  | nil => simp [objInsert]
  | cons kv rest =>
    obtain ⟨k0, v0⟩ := kv
    rw [objInsert]
    by_cases he : k0 = k
    · rw [if_pos he]
      simp
    · rw [if_neg he]
      simp

theorem foldl_objInsert_ne_nil (f : List Char → Json) (rs : List (List Char))
    (d : List (List Char × Json)) (h : d ≠ [] ∨ rs ≠ []) :
    rs.foldl (fun d repo => objInsert d repo (f repo)) d ≠ [] := by
  induction rs generalizing d with
  | nil =>
    rcases h with h | h
    · simpa using h
    · exact absurd rfl h
  | cons r rest ih =>
    rw [List.foldl_cons]
    exact ih (objInsert d r (f r)) (Or.inl (objInsert_ne_nil d r (f r)))

theorem foldl_objInsert_not_mem (f : List Char → Json) (rs : List (List Char))
    (d : List (List Char × Json)) (k : List Char) (h : k ∉ rs) :
    jlookup (rs.foldl (fun d repo => objInsert d repo (f repo)) d) k = jlookup d k := by
  induction rs generalizing d with
  | nil => rfl
  | cons r rest ih =>
    rw [List.foldl_cons]
    have hk : k ∉ rest := fun hm => h (List.mem_cons_of_mem r hm)
    have hr : ¬ k = r := fun he => h (he ▸ List.mem_cons_self r rest)
    rw [ih (objInsert d r (f r)) hk]
    exact jlookup_objInsert_other d r k (f r) hr

theorem foldl_objInsert_mem (f : List Char → Json) (rs : List (List Char))
    (d : List (List Char × Json)) (k : List Char) (h : k ∈ rs) :
    jlookup (rs.foldl (fun d repo => objInsert d repo (f repo)) d) k = some (f k) := by
  induction rs generalizing d with
  | nil => exact absurd h (List.not_mem_nil k)
  | cons r rest ih =>
    rw [List.foldl_cons]
    by_cases hm : k ∈ rest
    · exact ih (objInsert d r (f r)) hm
    · have he : k = r := by
        rcases List.mem_cons.mp h with he | hm2
        · exact he
        · exact absurd hm2 hm
      subst he
      rw [foldl_objInsert_not_mem f rest (objInsert d k (f k)) k hm]
      exact jlookup_objInsert_self d k (f k)

end VitAI

namespace VitAI

def cexC8st : AgentState := AgentState.mk [lit "o/r1"] [(lit "o/r1", Json.str (lit "old"))]

/-- Counterexample to C8 as stated: after the caller supplies the different
repository set `["o/r2"]`, the reload runs but the cache still holds the
stale entry for `"o/r1"` — `_load_repository_structures` assigns per current
repository and never clears, so the cache is merged, not rebuilt wholesale. -/
theorem cache_retains_stale_entries_counterexample :
    (queryCachePrelude (fun _ => Json.null) (some [lit "o/r2"]) cexC8st).repositories
      = [lit "o/r2"] ∧
    jlookup (queryCachePrelude (fun _ => Json.null) (some [lit "o/r2"])
        cexC8st).repoStructures (lit "o/r1") = some (Json.str (lit "old")) :=
  ⟨rfl, rfl⟩

/-- **C8 (amended).** When the caller supplies a truthy, changed repository
set, the prelude adopts it and reloads: afterwards every repository of the
*new* set maps to a freshly loaded structure — but keys outside the new set
are retained unchanged from the previous cache (the dict is merged into, not
rebuilt). -/
theorem cache_reload_covers_new_set (structureFor : List Char → Json)
    (st : AgentState) (rs : List (List Char)) (hne : rs ≠ [])
    (hch : setEq rs st.repositories = false) :
    (queryCachePrelude structureFor (some rs) st).repositories = rs ∧
    (∀ r, r ∈ rs →
      jlookup (queryCachePrelude structureFor (some rs) st).repoStructures r =
        some (structureFor r)) ∧
    (∀ k, k ∉ rs →
      jlookup (queryCachePrelude structureFor (some rs) st).repoStructures k =
        jlookup st.repoStructures k) := by
  have hfold : rs.foldl (fun d repo => objInsert d repo (structureFor repo))
      st.repoStructures ≠ [] :=
    foldl_objInsert_ne_nil structureFor rs st.repoStructures (Or.inr hne)
  have hres : queryCachePrelude structureFor (some rs) st =
      AgentState.mk rs (rs.foldl (fun d repo => objInsert d repo (structureFor repo))
        st.repoStructures) := by
    unfold queryCachePrelude
    dsimp only
    rw [if_neg (show ¬ rs.isEmpty = true by simp [hne])]
    rw [hch]
    rw [if_pos (show (!false) = true from rfl)]
    unfold loadRepositoryStructures
    dsimp only
    rw [if_neg (show ¬ (((rs.foldl (fun d repo => objInsert d repo (structureFor repo))
        st.repoStructures).isEmpty && !rs.isEmpty) = true) by
      simp [List.isEmpty_iff, hfold])]
  refine ⟨by rw [hres], ?_, ?_⟩
  · intro r hr
    rw [hres]
    exact foldl_objInsert_mem structureFor rs st.repoStructures r hr
  · intro k hk
    rw [hres]
    exact foldl_objInsert_not_mem structureFor rs st.repoStructures k hk

/-- Witness for the amended C8: switching from `["o/r1"]` (empty cache) to
`["o/r2"]` loads a fresh entry for `"o/r2"` and touches nothing else. -/
theorem cache_reload_covers_new_set_witness :
    (queryCachePrelude (fun _ => Json.num 7) (some [lit "o/r2"])
        (AgentState.mk [lit "o/r1"] [])).repositories = [lit "o/r2"] ∧
    (∀ r, r ∈ [lit "o/r2"] →
      jlookup (queryCachePrelude (fun _ => Json.num 7) (some [lit "o/r2"])
        (AgentState.mk [lit "o/r1"] [])).repoStructures r = some (Json.num 7)) ∧
    (∀ k, k ∉ [lit "o/r2"] →
      jlookup (queryCachePrelude (fun _ => Json.num 7) (some [lit "o/r2"])
        (AgentState.mk [lit "o/r1"] [])).repoStructures k =
        jlookup ([] : List (List Char × Json)) k) :=
  cache_reload_covers_new_set (fun _ => Json.num 7)
    (AgentState.mk [lit "o/r1"] []) [lit "o/r2"] (by decide) (by decide)

end VitAI
